import Mathlib

/-!
# Student management system: the flat-file record store

A shallow embedding of `src/student_mgmt.c` and the properties of its record
store.

Modelling conventions.

* A `Student` holds the C strings of the three text buffers (the characters
  before the terminating NUL), the two `int`s as integers and the `float` as
  the rational number it denotes (every finite `float` is a rational, and the
  comparisons of the program against `0.0`, `2.0`, `3.0`, `3.5` and `4.0` are
  exact). NaN and the single-precision sum behind the average are outside the
  model.
* `students.dat` and `temp.dat` are `Option (List Student)`: `none` when the
  file does not exist, otherwise the whole records it holds, in file order.
  `fopen(.., "rb")` and `fopen(.., "rb+")` succeed exactly when the file exists.
* Standard input is a list of characters where the program reads lines with
  `fgets`; the results of the `scanf` calls on standard input are given as the
  list of their successive results (`none` for a call that converts nothing).
* Failures of the environment (`fopen` for writing, `fwrite`, `remove`,
  `rename`) are inputs of the operation. An `fwrite` that fails writes nothing.
* A run that never returns, reads an uninitialised buffer or copies a string
  past the end of its destination has no result: the operation returns a
  `Fault`.
-/

namespace StudentMgmt

/-! ## Data model -/

/-- The record `Student` of the program. -/
structure Student where
  roll_no : Int
  name : List Char
  department : List Char
  course : List Char
  year_joined : Int
  gpa : ℚ
deriving DecidableEq

/-- The files the program touches: `DB_FILE`, `TEMP_FILE` and `CSV_FILE`. -/
structure FileSys where
  db : Option (List Student)
  temp : Option (List Student)
  csv : Option (List Char)
deriving DecidableEq

/-- Ways in which a call has no result. -/
inductive Fault where
  | noReturn
  | uninitRead
  | bufferOverflow
deriving DecidableEq

deriving instance DecidableEq for Except

/-- The bytes of a C string: the characters before the first NUL. -/
def cstr (b : List Char) : List Char :=
  b.takeWhile (fun c => decide (c ≠ Char.ofNat 0))

/-- The characters `fgets` stores when at least one is available: at most
`n` of them, stopping after a newline. Returns them with the rest of the input. -/
def readLine : Nat → List Char → List Char × List Char
  | 0, inp => ([], inp)
  | _ + 1, [] => ([], [])
  | n + 1, c :: cs =>
    if c = '\n' then ([c], cs)
    else ((readLine n cs).1.cons c, (readLine n cs).2)

/-- The call `fgets(buf, size, stdin)`: `none` at end of input (the buffer is
then left as it was), otherwise the characters stored and the remaining input. -/
def fgets (size : Nat) (stdin : List Char) : Option (List Char × List Char) :=
  match stdin with
  | [] => none
  | _ :: _ => some (readLine (size - 1) stdin)

/-- The statement `s[strcspn(s, "\n")] = '\0'` on a C string `s`. -/
def stripNewline (s : List Char) : List Char :=
  s.takeWhile (fun c => decide (c ≠ '\n'))

/-- A loop `while(scanf(fmt, &x) != 1 || bad x) clearInputBuffer();` over the
successive results of `scanf`: the first converted value that is not `bad`.
When no such value ever arrives the loop does not end. -/
def promptLoop {α : Type} (bad : α → Bool) : List (Option α) → Option α
  | [] => none
  | none :: rest => promptLoop bad rest
  | some v :: rest => if bad v then promptLoop bad rest else some v

/-! ## isDuplicate -/

/-- The read loop of `isDuplicate`. -/
def isDuplicateLoop (roll_no : Int) : List Student → Bool
  | [] => false
  | temp :: rest => if temp.roll_no = roll_no then true else isDuplicateLoop roll_no rest

/-- The function `isDuplicate`. -/
def isDuplicate (fs : FileSys) (roll_no : Int) : Bool :=
  match fs.db with
  | none => false
  | some recs => isDuplicateLoop roll_no recs

/-! ## addStudent -/

/-- What the user and the environment supply to one call of `addStudent`. -/
structure AddInput where
  /-- whether `fopen(DB_FILE, "ab")` succeeds -/
  openOk : Bool
  /-- results of the successive `scanf("%d", &newStudent.roll_no)` -/
  rolls : List (Option Int)
  /-- standard input from the name prompt on, read by the three `fgets` -/
  text : List Char
  /-- results of the successive `scanf("%d", &newStudent.year_joined)` -/
  years : List (Option Int)
  /-- results of the successive `scanf("%f", &newStudent.gpa)` -/
  gpas : List (Option ℚ)
  /-- whether the `fwrite` of the record succeeds -/
  writeOk : Bool

/-- How `addStudent` ends. -/
inductive AddOutcome where
  | openFailed
  | duplicate (roll_no : Int)
  | emptyName
  | writeFailed
  | added (s : Student)
deriving DecidableEq

/-- The pair `fgets(field, size, stdin); field[strcspn(field, "\n")] = '\0';`
on a field of `newStudent`, which is uninitialised before it. -/
def readField (size : Nat) (stdin : List Char) : Except Fault (List Char × List Char) :=
  match fgets size stdin with
  | none => .error .uninitRead
  | some (b, rest) => .ok (stripNewline (cstr b), rest)

/-- The roll number prompt: `while(scanf("%d", &roll_no) != 1 || roll_no <= 0)`. -/
def readRoll (rolls : List (Option Int)) : Option Int :=
  promptLoop (fun v => decide (v ≤ 0)) rolls

/-- The year prompt: `while(scanf(..) != 1 || year < 2000 || year > 2025)`. -/
def readYear (years : List (Option Int)) : Option Int :=
  promptLoop (fun v => decide (v < 2000) || decide (v > 2025)) years

/-- The GPA prompt: `while(scanf(..) != 1 || gpa < 0.0 || gpa > 4.0)`. -/
def readGpa (gpas : List (Option ℚ)) : Option ℚ :=
  promptLoop (fun v => decide (v < 0) || decide (v > 4)) gpas

/-- The function `addStudent`. -/
def addStudent (fs : FileSys) (inp : AddInput) : Except Fault (FileSys × AddOutcome) :=
  if inp.openOk = false then .ok (fs, .openFailed) else
  let recs := fs.db.getD []
  let fs1 : FileSys := { fs with db := some recs }
  match readRoll inp.rolls with
  | none => .error .noReturn
  | some roll_no =>
  if isDuplicate fs1 roll_no then .ok (fs1, .duplicate roll_no) else
  match readField 50 inp.text with
  | .error e => .error e
  | .ok (name, t1) =>
  if name.length = 0 then .ok (fs1, .emptyName) else
  match readField 50 t1 with
  | .error e => .error e
  | .ok (department, t2) =>
  match readField 30 t2 with
  | .error e => .error e
  | .ok (course, _) =>
  match readYear inp.years with
  | none => .error .noReturn
  | some year_joined =>
  match readGpa inp.gpas with
  | none => .error .noReturn
  | some gpa =>
  let newStudent : Student := { roll_no, name, department, course, year_joined, gpa }
  if inp.writeOk then .ok ({ fs1 with db := some (recs ++ [newStudent]) }, .added newStudent)
  else .ok (fs1, .writeFailed)

/-! ## displayAll -/

/-- The read loop of `displayAll`: the records printed so far and `count`. -/
def displayAllLoop : List Student → List Student × Nat → List Student × Nat
  | [], acc => acc
  | student :: rest, (printed, count) => displayAllLoop rest (printed ++ [student], count + 1)

/-- The function `displayAll`: `none` for the "No records found" screen, else
the rows printed and the total shown. -/
def displayAll (fs : FileSys) : Option (List Student × Nat) :=
  match fs.db with
  | none => none
  | some recs => some (displayAllLoop recs ([], 0))

/-! ## updateStudent -/

/-- The conversions of the C library used on the line buffer:
`sscanf(buffer, "%d", &x) == 1` and `sscanf(buffer, "%f", &x) == 1` with the
value stored, or `none` when nothing is converted. -/
structure Libc where
  sscanf_d : List Char → Option Int
  sscanf_f : List Char → Option ℚ

/-- What the user and the environment supply to one call of `updateStudent`. -/
structure UpdateInput where
  /-- result of `scanf("%d", &searchRoll)` -/
  roll : Option Int
  /-- standard input from the first "New ..." prompt on, read by the five `fgets` -/
  text : List Char
  /-- whether the `fwrite` of the updated record succeeds -/
  writeOk : Bool

/-- How `updateStudent` ends. -/
inductive UpdateOutcome where
  | invalidInput
  | openFailed
  | notFound
  | writeFailed
  | updated
deriving DecidableEq

/-- The search loop of `updateStudent` from record number `i` on: the number
of the first record whose roll number is `searchRoll` (its offset `pos` in
units of `sizeof(Student)`) and that record. -/
def updateStudentScan (searchRoll : Int) : List Student → Nat → Option (Nat × Student)
  | [], _ => none
  | student :: rest, i =>
    if student.roll_no = searchRoll then some (i, student)
    else updateStudentScan searchRoll rest (i + 1)

/-- The call `fgets(buffer, sizeof(buffer), stdin)` on `char buffer[100]`: the C
string in the buffer afterwards (`none` while the buffer is uninitialised) and
the remaining input. -/
def readBuffer (buffer : Option (List Char)) (stdin : List Char) :
    Option (List Char) × List Char :=
  match fgets 100 stdin with
  | none => (buffer, stdin)
  | some (b, rest) => (some (cstr b), rest)

/-- One text prompt of `updateStudent` for a field `char field[cap]`:
`fgets` into the buffer; unless the line is blank, strip the newline and
`strcpy` the buffer into the field. Returns the field, the buffer and the
remaining input. -/
def updateText (cap : Nat) (field : List Char) (buffer : Option (List Char))
    (stdin : List Char) : Except Fault (List Char × Option (List Char) × List Char) :=
  match readBuffer buffer stdin with
  | (none, _) => .error .uninitRead
  | (some b, rest) =>
    if b.head? = some '\n' then .ok (field, some b, rest)
    else if (stripNewline b).length < cap then .ok (stripNewline b, some (stripNewline b), rest)
    else .error .bufferOverflow

/-- One numeric prompt of `updateStudent`: `fgets` into the buffer; unless the
line is blank, convert it and store the value when it is not `bad`. -/
def updateNumber {α : Type} (conv : List Char → Option α) (bad : α → Bool) (field : α)
    (buffer : Option (List Char)) (stdin : List Char) :
    Except Fault (α × Option (List Char) × List Char) :=
  match readBuffer buffer stdin with
  | (none, _) => .error .uninitRead
  | (some b, rest) =>
    if b.head? = some '\n' then .ok (field, some b, rest)
    else
      match conv b with
      | none => .ok (field, some b, rest)
      | some v => if bad v then .ok (field, some b, rest) else .ok (v, some b, rest)

/-- The five prompts of `updateStudent` on the record found. -/
def updateStudentEdit (L : Libc) (student : Student) (stdin : List Char) :
    Except Fault Student :=
  match updateText 50 student.name none stdin with
  | .error e => .error e
  | .ok (name, b1, t1) =>
  match updateText 50 student.department b1 t1 with
  | .error e => .error e
  | .ok (department, b2, t2) =>
  match updateText 30 student.course b2 t2 with
  | .error e => .error e
  | .ok (course, b3, t3) =>
  match updateNumber L.sscanf_d (fun v => !(decide (v ≥ 2000) && decide (v ≤ 2025)))
      student.year_joined b3 t3 with
  | .error e => .error e
  | .ok (year_joined, b4, t4) =>
  match updateNumber L.sscanf_f (fun v => !(decide (v ≥ 0) && decide (v ≤ 4)))
      student.gpa b4 t4 with
  | .error e => .error e
  | .ok (gpa, _, _) =>
  .ok { roll_no := student.roll_no, name, department, course, year_joined, gpa }

/-- The function `updateStudent`. -/
def updateStudent (L : Libc) (fs : FileSys) (inp : UpdateInput) :
    Except Fault (FileSys × UpdateOutcome) :=
  match inp.roll with
  | none => .ok (fs, .invalidInput)
  | some searchRoll =>
  match fs.db with
  | none => .ok (fs, .openFailed)
  | some recs =>
  match updateStudentScan searchRoll recs 0 with
  | none => .ok (fs, .notFound)
  | some (pos, student) =>
  match updateStudentEdit L student inp.text with
  | .error e => .error e
  | .ok student1 =>
  if inp.writeOk then .ok ({ fs with db := some (recs.set pos student1) }, .updated)
  else .ok (fs, .writeFailed)

/-! ## deleteStudent -/

/-- What the user and the environment supply to one call of `deleteStudent`. -/
structure DeleteInput where
  /-- result of `scanf("%d", &searchRoll)` -/
  roll : Option Int
  /-- result of `scanf(" %c", &confirm)`: `none` when nothing is stored -/
  confirm : Option Char
  /-- whether `fopen(TEMP_FILE, "wb")` succeeds -/
  tempOpenOk : Bool
  /-- whether the `fwrite` to the temporary file of record number `i` of the
  store succeeds -/
  tempWriteOk : Nat → Bool
  /-- whether `remove(DB_FILE)` succeeds -/
  removeOk : Bool
  /-- whether `rename(TEMP_FILE, DB_FILE)` succeeds -/
  renameOk : Bool

/-- How `deleteStudent` ends. -/
inductive DeleteOutcome where
  | invalidInput
  | noDatabase
  | notFound
  | cancelled
  | tempFailed
  | removeFailed
  | renameFailed
  | deleted
deriving DecidableEq

/-- The first loop of `deleteStudent`: the record `toDelete`, when found. -/
def deleteStudentScan (searchRoll : Int) : List Student → Option Student
  | [] => none
  | student :: rest =>
    if student.roll_no = searchRoll then some student else deleteStudentScan searchRoll rest

/-- The copy loop of `deleteStudent` from record number `i` on, `temp` being
the records in the temporary file so far. The result of `fwrite` is not
looked at by the program. -/
def deleteStudentCopy (searchRoll : Int) (writeOk : Nat → Bool) :
    List Student → Nat → List Student → List Student
  | [], _, temp => temp
  | student :: rest, i, temp =>
    if student.roll_no ≠ searchRoll then
      deleteStudentCopy searchRoll writeOk rest (i + 1)
        (if writeOk i then temp ++ [student] else temp)
    else deleteStudentCopy searchRoll writeOk rest (i + 1) temp

/-- The function `deleteStudent`. -/
def deleteStudent (fs : FileSys) (inp : DeleteInput) :
    Except Fault (FileSys × DeleteOutcome) :=
  match inp.roll with
  | none => .ok (fs, .invalidInput)
  | some searchRoll =>
  match fs.db with
  | none => .ok (fs, .noDatabase)
  | some recs =>
  match deleteStudentScan searchRoll recs with
  | none => .ok (fs, .notFound)
  | some _ =>
  match inp.confirm with
  | none => .error .uninitRead
  | some confirm =>
  if confirm ≠ 'y' ∧ confirm ≠ 'Y' then .ok (fs, .cancelled) else
  if inp.tempOpenOk = false then .ok (fs, .tempFailed) else
  let fs1 : FileSys :=
    { fs with temp := some (deleteStudentCopy searchRoll inp.tempWriteOk recs 0 []) }
  if inp.removeOk = false then .ok (fs1, .removeFailed) else
  let fs2 : FileSys := { fs1 with db := none }
  if inp.renameOk = false then .ok (fs2, .renameFailed) else
  .ok ({ fs2 with db := fs1.temp, temp := none }, .deleted)

/-! ## displayStatistics -/

/-- The locals of the first loop of `displayStatistics`. -/
structure StatsAcc where
  count : Nat
  highestGPA : ℚ
  lowestGPA : ℚ
  topStudent : List Char
  weakStudent : List Char
deriving DecidableEq

/-- The initial values of the locals of `displayStatistics`. -/
def statsInit : StatsAcc :=
  { count := 0, highestGPA := 0, lowestGPA := 4, topStudent := [], weakStudent := [] }

/-- One iteration of the first loop of `displayStatistics`. -/
def statsStep (acc : StatsAcc) (student : Student) : StatsAcc :=
  let acc1 : StatsAcc := { acc with count := acc.count + 1 }
  let acc2 : StatsAcc :=
    if student.gpa > acc1.highestGPA then
      { acc1 with highestGPA := student.gpa, topStudent := student.name }
    else acc1
  if student.gpa < acc2.lowestGPA then
    { acc2 with lowestGPA := student.gpa, weakStudent := student.name }
  else acc2

/-- The first loop of `displayStatistics`. -/
def statsLoop : List Student → StatsAcc → StatsAcc
  | [], acc => acc
  | student :: rest, acc => statsLoop rest (statsStep acc student)

/-- The counters `excellent`, `good`, `average`, `poor`. -/
structure Buckets where
  excellent : Nat
  good : Nat
  average : Nat
  poor : Nat
deriving DecidableEq

/-- One iteration of the second loop of `displayStatistics`. -/
def bucketStep (b : Buckets) (student : Student) : Buckets :=
  if student.gpa ≥ 7 / 2 then { b with excellent := b.excellent + 1 }
  else if student.gpa ≥ 3 then { b with good := b.good + 1 }
  else if student.gpa ≥ 2 then { b with average := b.average + 1 }
  else { b with poor := b.poor + 1 }

/-- The second loop of `displayStatistics`. -/
def bucketLoop : List Student → Buckets → Buckets
  | [], b => b
  | student :: rest, b => bucketLoop rest (bucketStep b student)

/-- What `displayStatistics` shows, the average apart. -/
structure Statistics where
  count : Nat
  highestGPA : ℚ
  topStudent : List Char
  lowestGPA : ℚ
  weakStudent : List Char
  buckets : Buckets
deriving DecidableEq

/-- How `displayStatistics` ends. -/
inductive StatsOutcome where
  | noData
  | noStudents
  | report (s : Statistics)
deriving DecidableEq

/-- The function `displayStatistics`. -/
def displayStatistics (fs : FileSys) : StatsOutcome :=
  match fs.db with
  | none => .noData
  | some recs =>
    let acc := statsLoop recs statsInit
    if acc.count = 0 then .noStudents
    else
      .report
        { count := acc.count
          highestGPA := acc.highestGPA
          topStudent := acc.topStudent
          lowestGPA := acc.lowestGPA
          weakStudent := acc.weakStudent
          buckets := bucketLoop recs ⟨0, 0, 0, 0⟩ }

/-! ## exportToCSV -/

/-- The conversion `%d` of `fprintf`: the decimal numeral of an `int`. -/
def printf_d (v : Int) : List Char :=
  match v with
  | Int.ofNat n => Nat.toDigits 10 n
  | Int.negSucc n => '-' :: Nat.toDigits 10 (n + 1)

/-- The header line `exportToCSV` writes first. -/
def csvHeader : List Char :=
  "Roll Number,Name,Department,Course,Year Joined,GPA\n".toList

/-- The conversions of `fprintf` that `exportToCSV` uses, taken from the C
library: `conv_d v` is what `%d` writes for the `int` `v`, and
`conv_2f neg q` is what `%.2f` writes for the `float` with sign bit `neg`
and value `q`. -/
structure Printf where
  conv_d : Int → List Char
  conv_2f : Bool → ℚ → List Char

/-- What one call of `exportToCSV` depends on besides the records. -/
structure ExportInput where
  /-- whether `fopen(CSV_FILE, "w")` succeeds -/
  csvOpenOk : Bool
  /-- the sign bit of the `float` GPA of record number `i` of the store, which
  the value of the GPA fixes unless that value is zero -/
  signbit : Nat → Bool

/-- The call `fprintf(csv, "%d,%s,%s,%s,%d,%.2f\n", ...)` on one record, whose
GPA has the sign bit `neg`: the characters it writes. -/
def exportLine (P : Printf) (neg : Bool) (student : Student) : List Char :=
  P.conv_d student.roll_no ++ ',' :: (student.name ++ ',' :: (student.department ++ ',' ::
    (student.course ++ ',' :: (P.conv_d student.year_joined ++ ',' ::
      (P.conv_2f neg student.gpa ++ ['\n'])))))

/-- The write loop of `exportToCSV`: the contents of the CSV file so far and
`count`, which is also the number of the record being read. The program does
not look at the result of `fprintf`; the writes are taken to succeed. -/
def exportLoop (P : Printf) (signbit : Nat → Bool) :
    List Student → List Char × Nat → List Char × Nat
  | [], acc => acc
  | student :: rest, (csv, count) =>
    exportLoop P signbit rest (csv ++ exportLine P (signbit count) student, count + 1)

/-- How `exportToCSV` ends. -/
inductive ExportOutcome where
  | noData
  | csvFailed
  | exported (count : Nat)
deriving DecidableEq

/-- The function `exportToCSV`. -/
def exportToCSV (P : Printf) (fs : FileSys) (inp : ExportInput) : FileSys × ExportOutcome :=
  match fs.db with
  | none => (fs, .noData)
  | some recs =>
    if inp.csvOpenOk = false then (fs, .csvFailed)
    else
      ({ fs with csv := some (exportLoop P inp.signbit recs (csvHeader, 0)).1 },
        .exported (exportLoop P inp.signbit recs (csvHeader, 0)).2)

/-! ## Sequences of operations -/

/-- A modifying choice of the main menu with what the user and the
environment supply to it: choice 1, 4 or 5. -/
inductive Op where
  | add (inp : AddInput)
  | update (inp : UpdateInput)
  | delete (inp : DeleteInput)

/-- One turn of the menu loop of `main` on a modifying choice: the files after it. -/
def step (L : Libc) (fs : FileSys) : Op → Except Fault FileSys
  | .add inp =>
    match addStudent fs inp with
    | .error e => .error e
    | .ok (fs1, _) => .ok fs1
  | .update inp =>
    match updateStudent L fs inp with
    | .error e => .error e
    | .ok (fs1, _) => .ok fs1
  | .delete inp =>
    match deleteStudent fs inp with
    | .error e => .error e
    | .ok (fs1, _) => .ok fs1

/-- The menu loop of `main` over a sequence of modifying choices. -/
def run (L : Libc) : FileSys → List Op → Except Fault FileSys
  | fs, [] => .ok fs
  | fs, op :: ops =>
    match step L fs op with
    | .error e => .error e
    | .ok fs1 => run L fs1 ops

/-! ## Vocabulary of the statements -/

/-- The roll numbers of the stored records, in file order. -/
def rolls (fs : FileSys) : List Int :=
  (fs.db.getD []).map Student.roll_no

/-- A line of text as typed before Enter: no newline and no NUL in it. -/
def IsLine (l : List Char) : Prop :=
  ∀ c ∈ l, c ≠ '\n' ∧ c ≠ Char.ofNat 0

instance (l : List Char) : Decidable (IsLine l) := by
  unfold IsLine; infer_instance

/-- The text fields of a record fit the struct: 49, 49 and 29 characters
before the terminating NUL of `name[50]`, `department[50]`, `course[30]`. -/
def Student.Fits (s : Student) : Prop :=
  s.name.length ≤ 49 ∧ s.department.length ≤ 49 ∧ s.course.length ≤ 29

instance (s : Student) : Decidable s.Fits := by
  unfold Student.Fits; infer_instance

/-! ## Sample data -/

/-- A sample record. -/
def sampleA : Student := ⟨1, "Ann".toList, "CS".toList, "BSc".toList, 2020, 3⟩

/-- A sample record. -/
def sampleB : Student := ⟨2, "Bob".toList, "EE".toList, "MSc".toList, 2021, 2⟩

/-- A sample record. -/
def sampleC : Student := ⟨3, "Cy".toList, "ME".toList, "BSc".toList, 2022, 4⟩

/-- A sample record. -/
def sampleD : Student := ⟨4, "Di".toList, "CE".toList, "PhD".toList, 2023, 1⟩

/-- A name of 49 characters, the longest that `name[50]` holds. -/
def name49 : List Char := List.replicate 49 'a'

/-- The record a user means to add by typing `name49`, `CS`, `BSc`, `2020`
and `3` at the five prompts after the roll number `1`. -/
def typed49 : Student := ⟨1, name49, "CS".toList, "BSc".toList, 2020, 3⟩

/-- The call of `addStudent` in which the user types roll number `1` and then
the lines `name49`, `CS`, `BSc`, `2020` and `3`. The three `fgets` read from
`text`; the year prompt then finds the line `BSc`, on which `scanf("%d")`
converts nothing, before it finds `2020`. -/
def input49 : AddInput :=
  { openOk := true
    rolls := [some 1]
    text := name49 ++ "\nCS\nBSc\n2020\n3\n".toList
    years := [none, some 2020]
    gpas := [some 3]
    writeOk := true }

/-- The record `addStudent` stores on `input49`. -/
def stored49 : Student := ⟨1, name49, [], "CS".toList, 2020, 3⟩

/-- A confirmed deletion of roll number `k` in an environment without failures. -/
def confirmedDelete (k : Int) : DeleteInput :=
  { roll := some k
    confirm := some 'y'
    tempOpenOk := true
    tempWriteOk := fun _ => true
    removeOk := true
    renameOk := true }

/-! ## Answers to the prompts of updateStudent

The field changes of an update, as the lines typed at the five prompts, and
the record they describe. These definitions state what `updateStudent` is
expected to produce; `updateStudent_answers` relates them to the function. -/

/-- The five lines a user answers to the prompts of `updateStudent`, each
without its newline: `[]` is the blank line that keeps the current value. -/
structure Answers where
  name : List Char
  department : List Char
  course : List Char
  year : List Char
  gpa : List Char

/-- The characters the answers put on standard input, followed by `rest`. -/
def Answers.text (a : Answers) (rest : List Char) : List Char :=
  a.name ++ '\n' :: (a.department ++ '\n' :: (a.course ++ '\n' ::
    (a.year ++ '\n' :: (a.gpa ++ '\n' :: rest))))

/-- The answers are lines, each fits the line buffer `buffer[100]` with its
newline, and each text answer fits the field it is copied to. -/
def Answers.Fit (a : Answers) : Prop :=
  (IsLine a.name ∧ IsLine a.department ∧ IsLine a.course ∧ IsLine a.year ∧ IsLine a.gpa) ∧
  (a.name.length ≤ 49 ∧ a.department.length ≤ 49 ∧ a.course.length ≤ 29 ∧
    a.year.length ≤ 98 ∧ a.gpa.length ≤ 98)

instance (a : Answers) : Decidable a.Fit := by
  unfold Answers.Fit; infer_instance

/-- The value a numeric prompt of `updateStudent` leaves in a field for the
answer `l`: the converted value when the answer is not blank, converts and
lies within `lo` and `hi`, and the current value otherwise. -/
def answeredNumber {α : Type} [LE α] [DecidableRel (fun x y : α => x ≤ y)]
    (conv : List Char → Option α) (lo hi : α) (field : α) (l : List Char) : α :=
  if l = [] then field
  else
    match conv (l ++ ['\n']) with
    | none => field
    | some v => if lo ≤ v ∧ v ≤ hi then v else field

/-- The record that the answers `a` describe for the stored record `old`. -/
def answered (L : Libc) (old : Student) (a : Answers) : Student :=
  { roll_no := old.roll_no
    name := if a.name = [] then old.name else a.name
    department := if a.department = [] then old.department else a.department
    course := if a.course = [] then old.course else a.course
    year_joined := answeredNumber L.sscanf_d 2000 2025 old.year_joined a.year
    gpa := answeredNumber L.sscanf_f 0 4 old.gpa a.gpa }

/-! ## A C library for the worked examples -/

/-- The predicate `isspace` of the C locale. -/
def isspace (c : Char) : Bool :=
  c = ' ' || c = '\t' || c = '\n' || c = Char.ofNat 11 || c = Char.ofNat 12 || c = '\r'

/-- The number written by a run of decimal digits, read onto `acc`. -/
def digitsValue : List Char → Nat → Nat
  | [], acc => acc
  | c :: cs, acc => digitsValue cs (10 * acc + (c.toNat - 48))

/-- Splits an optional sign off a numeral: whether it is negative, and the rest. -/
def takeSign : List Char → Bool × List Char
  | '-' :: t => (true, t)
  | '+' :: t => (false, t)
  | b => (false, b)

/-- The conversion `%d` on a decimal numeral: white space, an optional sign,
one or more digits. -/
def decimalInt (b : List Char) : Option Int :=
  let signed := takeSign (b.dropWhile isspace)
  let ds := signed.2.takeWhile Char.isDigit
  if ds = [] then none
  else some (if signed.1 then -(digitsValue ds 0 : Int) else (digitsValue ds 0 : Int))

/-- The fraction digits after a decimal point, if there is one. -/
def fractionDigits : List Char → List Char
  | '.' :: t => t.takeWhile Char.isDigit
  | _ => []

/-- The conversion `%f` on a plain decimal numeral (white space, an optional
sign, digits, an optional point and digits): the number the numeral writes.
C stores the nearest `float`, which is that number for the numerals of the
examples (`4.5`, `3.5`, `5`). -/
def decimalRat (b : List Char) : Option ℚ :=
  let signed := takeSign (b.dropWhile isspace)
  let ip := signed.2.takeWhile Char.isDigit
  let fp := fractionDigits (signed.2.dropWhile Char.isDigit)
  if ip = [] ∧ fp = [] then none
  else
    let v : ℚ := (digitsValue (ip ++ fp) 0 : ℚ) / (10 : ℚ) ^ fp.length
    some (if signed.1 then -v else v)

/-- The conversions used in the worked examples. -/
def sampleLibc : Libc :=
  { sscanf_d := decimalInt, sscanf_f := decimalRat }

/-- Answers that rename the student and give a year and a GPA out of range. -/
def sampleAnswers : Answers :=
  { name := "Zed".toList, department := [], course := [], year := "1999".toList,
    gpa := "4.5".toList }

/-- A run of the menu: add `sampleA`, try to add roll number 1 again, add
`sampleB`, rename the student with roll number 1, delete roll number 2. -/
def sampleOps : List Op :=
  [ .add ⟨true, [some 1], "Ann\nCS\nBSc\n".toList, [some 2020], [some 3], true⟩,
    .add ⟨true, [some 1], "Ann\nCS\nBSc\n".toList, [some 2020], [some 3], true⟩,
    .add ⟨true, [some 2], "Bob\nEE\nMSc\n".toList, [some 2021], [some 2], true⟩,
    .update ⟨some 1, "Zed\n\n\n\n\n".toList, true⟩,
    .delete (confirmedDelete 2) ]

/-- A student whose GPA is the lowest of the domain. -/
def sampleZero : Student := ⟨1, "Ann".toList, "CS".toList, "BSc".toList, 2020, 0⟩

/-- The band `[3.5, 4.0]`, which the distribution of `displayStatistics`
calls excellent. -/
def isExcellent (s : Student) : Bool := decide (7 / 2 ≤ s.gpa ∧ s.gpa ≤ 4)

/-- The band `[3.0, 3.5)`, called good. -/
def isGood (s : Student) : Bool := decide (3 ≤ s.gpa ∧ s.gpa < 7 / 2)

/-- The band `[2.0, 3.0)`, called average. -/
def isAverage (s : Student) : Bool := decide (2 ≤ s.gpa ∧ s.gpa < 3)

/-- The band `[0, 2.0)`, called poor. -/
def isPoor (s : Student) : Bool := decide (0 ≤ s.gpa ∧ s.gpa < 2)

/-- The number of bands a record lies in. -/
def bandsOf (s : Student) : Nat :=
  [isExcellent s, isGood s, isAverage s, isPoor s].count true

/-- The single-precision numbers nearest to 3.9, 2.1, 3.4 and 0.5, as four
records in this order. -/
def sampleGpas : List Student :=
  [ ⟨1, "Ann".toList, [], [], 2020, 16357786 / 4194304⟩,
    ⟨2, "Bob".toList, [], [], 2020, 8808038 / 4194304⟩,
    ⟨3, "Cy".toList, [], [], 2020, 14260634 / 4194304⟩,
    ⟨4, "Di".toList, [], [], 2020, 1 / 2⟩ ]

/-- A line of 60 characters, longer than `name[50]` can hold. -/
def name60 : List Char := List.replicate 60 'a'

/-- The call of `updateStudent` for roll number 1 in which the user types
`name60` as the new name and leaves the four other prompts blank. -/
def input60 : UpdateInput :=
  { roll := some 1, text := name60 ++ "\n\n\n\n\n".toList, writeOk := true }

/-- The call of `addStudent` in which the user types roll number 5, the line
`name60` as the name and then `CS`, `BSc`, `2020` and `3`. The name prompt
takes 49 characters of the line and the department prompt the rest of it;
the course prompt reads `CS`, and the year prompt finds `BSc` before `2020`. -/
def inputAdd60 : AddInput :=
  { openOk := true
    rolls := [some 5]
    text := name60 ++ "\nCS\nBSc\n2020\n3\n".toList
    years := [none, some 2020]
    gpas := [some 3]
    writeOk := true }

/-- A confirmed deletion of roll number `k` in which the `fwrite` of record
number `i` of the store to the temporary file fails and nothing else does. -/
def deleteWithFailedWrite (k : Int) (i : Nat) : DeleteInput :=
  { roll := some k
    confirm := some 'y'
    tempOpenOk := true
    tempWriteOk := fun j => decide (j ≠ i)
    removeOk := true
    renameOk := true }

/-! ## Rows of the export -/

/-- The data row of a record as the export is described: the six fields in
the column order roll number, name, department, course, year joined, GPA,
joined by commas with no escaping, and ended by a newline. -/
def csvRow (P : Printf) (neg : Bool) (s : Student) : List Char :=
  List.intercalate [','] [P.conv_d s.roll_no, s.name, s.department, s.course,
    P.conv_d s.year_joined, P.conv_2f neg s.gpa] ++ ['\n']

/-- The data rows of the records `recs`, the first of which is record number
`i` of the store. -/
def csvRows (P : Printf) (signbit : Nat → Bool) : List Student → Nat → List (List Char)
  | [], _ => []
  | s :: rest, i => csvRow P (signbit i) s :: csvRows P signbit rest (i + 1)

/-- Two decimal digits of a number below 100. -/
def twoDigits (n : Nat) : List Char :=
  [Nat.digitChar (n / 10), Nat.digitChar (n % 10)]

/-- The number of hundredths nearest to a non-negative `t / 100`, ties to even. -/
def nearestEven (t : ℚ) : Nat :=
  let f := t.floor.toNat
  if t - f < 1 / 2 then f
  else if 1 / 2 < t - f then f + 1
  else if f % 2 = 0 then f else f + 1

/-- The conversion `%.2f` of the worked examples: the value rounded to the
nearest hundredth, ties to even, as a C library that rounds the exact value
prints it. -/
def twoDecimals (q : ℚ) : List Char :=
  let h := nearestEven (|q| * 100)
  (if q < 0 then ['-'] else []) ++ Nat.toDigits 10 (h / 100) ++ '.' :: twoDigits (h % 100)

/-- The conversions of the worked examples: `%d` as the decimal numeral and
`%.2f` as the sign followed by the two-decimal rounding of the magnitude. -/
def samplePrintf : Printf :=
  { conv_d := printf_d
    conv_2f := fun neg q => (if neg then ['-'] else []) ++ twoDecimals |q| }

/-- The export in which the CSV file opens and no GPA has its sign bit set. -/
def plainExport : ExportInput :=
  { csvOpenOk := true, signbit := fun _ => false }

/-- A record whose name holds a comma. -/
def sampleComma : Student := ⟨7, "Lee, Ann".toList, "CS".toList, "BSc".toList, 2024, 1 / 8⟩

/-! ## Lemmas on reading lines -/

theorem cstr_of_noNul (b : List Char) (h : ∀ c ∈ b, c ≠ Char.ofNat 0) : cstr b = b := by
  unfold cstr
  rw [List.takeWhile_eq_self_iff]
  intro c hc
  simpa using h c hc

theorem stripNewline_line (l : List Char) (h : ∀ c ∈ l, c ≠ '\n') :
    stripNewline (l ++ ['\n']) = l := by
  unfold stripNewline
  induction l with
  | nil => simp [List.takeWhile]
  | cons c cs ih =>
    have hc : c ≠ '\n' := h c (List.mem_cons_self _ _)
    have hcs : ∀ d ∈ cs, d ≠ '\n' := fun d hd => h d (List.mem_cons_of_mem _ hd)
    simp [List.takeWhile, hc]
    simpa using ih hcs

theorem readLine_line (l rest : List Char) (h : ∀ c ∈ l, c ≠ '\n') :
    ∀ n, l.length < n → readLine n (l ++ '\n' :: rest) = (l ++ ['\n'], rest) := by
  induction l with
  | nil =>
    intro n hn
    cases n with
    | zero => simp at hn
    | succ n => simp [readLine]
  | cons c cs ih =>
    intro n hn
    have hc : c ≠ '\n' := h c (List.mem_cons_self _ _)
    have hcs : ∀ d ∈ cs, d ≠ '\n' := fun d hd => h d (List.mem_cons_of_mem _ hd)
    cases n with
    | zero => simp at hn
    | succ n =>
      have hlen : cs.length < n := by simpa using hn
      simp [readLine, hc, ih hcs n hlen]

theorem readField_line (size : Nat) (l rest : List Char) (hl : IsLine l)
    (hlen : l.length + 2 ≤ size) :
    readField size (l ++ '\n' :: rest) = .ok (l, rest) := by
  have hnl : ∀ c ∈ l, c ≠ '\n' := fun c hc => (hl c hc).1
  have hnul : ∀ c ∈ l ++ ['\n'], c ≠ Char.ofNat 0 := by
    intro c hc
    rcases List.mem_append.1 hc with h | h
    · exact (hl c h).2
    · have : c = '\n' := by simpa using h
      subst this; decide
  have hread : fgets size (l ++ '\n' :: rest) = some (l ++ ['\n'], rest) := by
    unfold fgets
    cases hcase : l ++ '\n' :: rest with
    | nil => simp at hcase
    | cons a as =>
      simp only
      rw [← hcase, readLine_line l rest hnl (size - 1) (by omega)]
  simp [readField, hread, cstr_of_noNul _ hnul, stripNewline_line l hnl]

theorem isDuplicateLoop_iff (k : Int) (recs : List Student) :
    isDuplicateLoop k recs = true ↔ k ∈ recs.map Student.roll_no := by
  induction recs with
  | nil => simp [isDuplicateLoop]
  | cons r rs ih =>
    by_cases h : r.roll_no = k
    · simp [isDuplicateLoop, h]
    · have h2 : ¬ k = r.roll_no := fun e => h e.symm
      simp [isDuplicateLoop, h, h2, ih]

theorem displayAllLoop_eq (recs : List Student) :
    ∀ printed count, displayAllLoop recs (printed, count) = (printed ++ recs, count + recs.length) := by
  induction recs with
  | nil => intro p c; simp [displayAllLoop]
  | cons r rs ih =>
    intro p c
    simp [displayAllLoop, ih]
    omega

theorem displayAll_eq (fs : FileSys) (recs : List Student) (h : fs.db = some recs) :
    displayAll fs = some (recs, recs.length) := by
  simp [displayAll, h, displayAllLoop_eq]

/-! ## addStudent: duplicate keys and appending -/

/-- C1. For every store and every roll number `k` that already occurs in it,
`addStudent` with roll number `k` (the answer accepted by the roll number
prompt) ends with the duplicate-key outcome and changes no file: the stored
records and their count are the same after the call. -/
theorem addStudent_duplicate_unchanged (fs : FileSys) (recs : List Student) (inp : AddInput)
    (k : Int) (hdb : fs.db = some recs) (hk : k ∈ recs.map Student.roll_no)
    (hopen : inp.openOk = true) (hroll : readRoll inp.rolls = some k) :
    addStudent fs inp = .ok (fs, .duplicate k) ∧
      displayAll fs = some (recs, recs.length) := by
  have hdup : isDuplicateLoop k recs = true := (isDuplicateLoop_iff k recs).2 hk
  have hfs : ({ fs with db := some recs } : FileSys) = fs := by
    cases fs; simp_all
  refine ⟨?_, displayAll_eq fs recs hdb⟩
  simp [addStudent, hopen, hroll, hdb, isDuplicate, hdup, hfs]

theorem addStudent_duplicate_unchanged_witness :
    addStudent ⟨some [sampleA, sampleB], none, none⟩
        ⟨true, [none, some 0, some 2], [], [], [], true⟩
      = .ok (⟨some [sampleA, sampleB], none, none⟩, .duplicate 2) ∧
      displayAll ⟨some [sampleA, sampleB], none, none⟩ = some ([sampleA, sampleB], 2) :=
  addStudent_duplicate_unchanged ⟨some [sampleA, sampleB], none, none⟩ [sampleA, sampleB]
    ⟨true, [none, some 0, some 2], [], [], [], true⟩ 2 rfl (by decide) rfl (by decide)

/-- Appending through `addStudent`: when the three text answers are lines that
leave room for the newline in the buffers (48, 48 and 28 characters), the
record made of the accepted answers is appended and nothing else changes. -/
theorem addStudent_append (fs : FileSys) (inp : AddInput) (r : Student) (rest : List Char)
    (hopen : inp.openOk = true) (hroll : readRoll inp.rolls = some r.roll_no)
    (hnew : r.roll_no ∉ rolls fs)
    (htext : inp.text = r.name ++ '\n' :: (r.department ++ '\n' :: (r.course ++ '\n' :: rest)))
    (hname : r.name ≠ [])
    (hl1 : IsLine r.name) (hl2 : IsLine r.department) (hl3 : IsLine r.course)
    (hn1 : r.name.length ≤ 48) (hn2 : r.department.length ≤ 48) (hn3 : r.course.length ≤ 28)
    (hyear : readYear inp.years = some r.year_joined) (hgpa : readGpa inp.gpas = some r.gpa)
    (hwrite : inp.writeOk = true) :
    addStudent fs inp
      = .ok ({ fs with db := some (fs.db.getD [] ++ [r]) }, .added r) := by
  have hdup : isDuplicateLoop r.roll_no (fs.db.getD []) = false := by
    cases h : isDuplicateLoop r.roll_no (fs.db.getD []) with
    | false => rfl
    | true => exact absurd ((isDuplicateLoop_iff _ _).1 h) hnew
  have h1 := readField_line 50 r.name (r.department ++ '\n' :: (r.course ++ '\n' :: rest))
    hl1 (by omega)
  have h2 := readField_line 50 r.department (r.course ++ '\n' :: rest) hl2 (by omega)
  have h3 := readField_line 30 r.course rest hl3 (by omega)
  have hlen : r.name.length ≠ 0 := by
    intro h; exact hname (List.length_eq_zero.1 h)
  simp [addStudent, hopen, hroll, isDuplicate, hdup, htext, h1, h2, h3, hlen, hyear, hgpa,
    hwrite]

/-- C2. A valid record whose name uses the whole capacity of the field is
not stored as supplied. Adding `typed49` (roll number 1 on an empty store,
a name of 49 characters, department `CS`, course `BSc`, year 2020, GPA 3)
succeeds and the store grows by one record, but `fgets(newStudent.name, 50,
stdin)` leaves the newline of the name line unread, so the record stored has
an empty department and the department typed as its course. -/
theorem addStudent_name49_not_roundtrip :
    addStudent ⟨some [], none, none⟩ input49
        = .ok (⟨some [stored49], none, none⟩, .added stored49) ∧
      displayAll ⟨some [stored49], none, none⟩ = some ([stored49], 1) ∧
      (0 < typed49.roll_no ∧ typed49.name ≠ [] ∧ typed49.Fits ∧
        2000 ≤ typed49.year_joined ∧ typed49.year_joined ≤ 2025 ∧
        0 ≤ typed49.gpa ∧ typed49.gpa ≤ 4) ∧
      stored49.department = [] ∧ stored49.course = typed49.department ∧
      stored49 ≠ typed49 := by
  refine ⟨by decide, by decide, ?_, rfl, rfl, by decide⟩
  refine ⟨by decide, by decide, by decide, by decide, by decide, by decide, by decide⟩

/-! ## deleteStudent -/

theorem deleteStudentScan_none (k : Int) (recs : List Student)
    (hk : k ∉ recs.map Student.roll_no) : deleteStudentScan k recs = none := by
  induction recs with
  | nil => rfl
  | cons r rs ih =>
    have h1 : r.roll_no ≠ k := by
      intro e; apply hk; simp [e.symm]
    have h2 : k ∉ rs.map Student.roll_no := by
      intro hm; apply hk; simp only [List.map_cons, List.mem_cons]; exact Or.inr hm
    simp [deleteStudentScan, h1, ih h2]

theorem deleteStudentScan_some (k : Int) (recs : List Student)
    (hk : k ∈ recs.map Student.roll_no) : ∃ r, deleteStudentScan k recs = some r := by
  induction recs with
  | nil => simp at hk
  | cons r rs ih =>
    by_cases h : r.roll_no = k
    · exact ⟨r, by simp [deleteStudentScan, h]⟩
    · have hk2 : k ∈ rs.map Student.roll_no := by
        simp only [List.map_cons, List.mem_cons] at hk
        rcases hk with e | hm
        · exact absurd e.symm h
        · exact hm
      obtain ⟨x, hx⟩ := ih hk2
      exact ⟨x, by simp [deleteStudentScan, h, hx]⟩

theorem deleteStudentCopy_eq (k : Int) (w : Nat → Bool) (hw : ∀ i, w i = true)
    (recs : List Student) :
    ∀ i temp, deleteStudentCopy k w recs i temp
      = temp ++ recs.filter (fun s => decide (s.roll_no ≠ k)) := by
  induction recs with
  | nil => intro i temp; simp [deleteStudentCopy]
  | cons r rs ih =>
    intro i temp
    by_cases h : r.roll_no = k
    · simp [deleteStudentCopy, h, ih]
    · simp [deleteStudentCopy, h, hw, ih]

theorem filter_ne_of_not_mem (k : Int) (recs : List Student)
    (hk : k ∉ recs.map Student.roll_no) :
    recs.filter (fun s => decide (s.roll_no ≠ k)) = recs := by
  rw [List.filter_eq_self]
  intro s hs
  have : s.roll_no ≠ k := by
    intro e; apply hk; rw [← e]; exact List.mem_map_of_mem _ hs
  simpa using this

theorem split_at_roll (k : Int) (recs : List Student)
    (hk : k ∈ recs.map Student.roll_no) :
    ∃ pre r post, recs = pre ++ r :: post ∧ r.roll_no = k ∧ k ∉ pre.map Student.roll_no := by
  induction recs with
  | nil => simp at hk
  | cons a as ih =>
    by_cases h : a.roll_no = k
    · exact ⟨[], a, as, rfl, h, by simp⟩
    · have hk2 : k ∈ as.map Student.roll_no := by
        simp only [List.map_cons, List.mem_cons] at hk
        rcases hk with e | hm
        · exact absurd e.symm h
        · exact hm
      obtain ⟨pre, r, post, hsplit, hr, hpre⟩ := ih hk2
      refine ⟨a :: pre, r, post, by simp [hsplit], hr, ?_⟩
      simp only [List.map_cons, List.mem_cons, not_or]
      exact ⟨fun e => h e.symm, hpre⟩

/-- C3. For every store whose roll numbers are pairwise distinct and every
roll number `k` present in it, a confirmed `deleteStudent` of `k` (answer `y`
or `Y`, no failure of the environment) removes exactly one record: the store
`pre ++ r :: post` with `r` the record of roll `k` becomes `pre ++ post`, the
count drops by one, no record with roll `k` remains, and the other records
keep their content and order. -/
theorem deleteStudent_removes_one (fs : FileSys) (recs : List Student) (inp : DeleteInput)
    (k : Int) (hdb : fs.db = some recs) (hnodup : (recs.map Student.roll_no).Nodup)
    (hk : k ∈ recs.map Student.roll_no) (hroll : inp.roll = some k)
    (hconfirm : inp.confirm = some 'y' ∨ inp.confirm = some 'Y')
    (htemp : inp.tempOpenOk = true) (hwrite : ∀ i, inp.tempWriteOk i = true)
    (hremove : inp.removeOk = true) (hrename : inp.renameOk = true) :
    ∃ pre r post, recs = pre ++ r :: post ∧ r.roll_no = k ∧
      deleteStudent fs inp
        = .ok ({ fs with db := some (pre ++ post), temp := none }, .deleted) ∧
      (pre ++ post).length + 1 = recs.length ∧
      k ∉ (pre ++ post).map Student.roll_no := by
  obtain ⟨pre, r, post, hsplit, hr, hpre⟩ := split_at_roll k recs hk
  have hpost : k ∉ post.map Student.roll_no := by
    rw [hsplit] at hnodup
    simp only [List.map_append, List.map_cons] at hnodup
    have h2 := (List.nodup_append.1 hnodup).2.1
    rw [hr] at h2
    exact (List.nodup_cons.1 h2).1
  obtain ⟨x, hx⟩ := deleteStudentScan_some k recs hk
  have hfilter : recs.filter (fun s => decide (s.roll_no ≠ k)) = pre ++ post := by
    rw [hsplit, List.filter_append, List.filter_cons, filter_ne_of_not_mem k pre hpre,
      filter_ne_of_not_mem k post hpost]
    simp [hr]
  have hcopy := deleteStudentCopy_eq k inp.tempWriteOk hwrite recs 0 []
  rw [hfilter] at hcopy
  refine ⟨pre, r, post, hsplit, hr, ?_, by simp [hsplit]; omega, ?_⟩
  · rcases hconfirm with hc | hc <;>
      simp [deleteStudent, hroll, hdb, hx, hc, htemp, hremove, hrename, hcopy]
  · simp only [List.map_append, List.mem_append, not_or]
    exact ⟨hpre, hpost⟩

theorem deleteStudent_removes_one_witness :
    ∃ pre r post, [sampleA, sampleB, sampleC, sampleD] = pre ++ r :: post ∧ r.roll_no = 2 ∧
      deleteStudent ⟨some [sampleA, sampleB, sampleC, sampleD], none, none⟩ (confirmedDelete 2)
        = .ok ({ (⟨some [sampleA, sampleB, sampleC, sampleD], none, none⟩ : FileSys) with
                  db := some (pre ++ post), temp := none }, .deleted) ∧
      (pre ++ post).length + 1 = [sampleA, sampleB, sampleC, sampleD].length ∧
      (2 : Int) ∉ (pre ++ post).map Student.roll_no :=
  deleteStudent_removes_one ⟨some [sampleA, sampleB, sampleC, sampleD], none, none⟩
    [sampleA, sampleB, sampleC, sampleD] (confirmedDelete 2) 2 rfl (by decide) (by decide) rfl
    (Or.inl rfl) rfl (fun _ => rfl) rfl rfl

/-- C4. For every store and every roll number `k` that occurs in no stored
record, `deleteStudent` of `k` reports not-found before any destructive step:
whatever the confirmation and the environment, no file is created, removed
or renamed, and the store and the temporary file are as before. -/
theorem deleteStudent_absent_unchanged (fs : FileSys) (recs : List Student)
    (inp : DeleteInput) (k : Int) (hdb : fs.db = some recs)
    (hk : k ∉ recs.map Student.roll_no) (hroll : inp.roll = some k) :
    deleteStudent fs inp = .ok (fs, .notFound) := by
  simp [deleteStudent, hroll, hdb, deleteStudentScan_none k recs hk]

theorem deleteStudent_absent_unchanged_witness :
    deleteStudent ⟨some [sampleA, sampleB], none, none⟩ (confirmedDelete 7)
      = .ok (⟨some [sampleA, sampleB], none, none⟩, .notFound) :=
  deleteStudent_absent_unchanged ⟨some [sampleA, sampleB], none, none⟩ [sampleA, sampleB]
    (confirmedDelete 7) 7 rfl (by decide) rfl

/-! ## updateStudent -/

theorem readBuffer_line (buffer : Option (List Char)) (l rest : List Char) (hl : IsLine l)
    (hlen : l.length ≤ 98) :
    readBuffer buffer (l ++ '\n' :: rest) = (some (l ++ ['\n']), rest) := by
  have hnl : ∀ c ∈ l, c ≠ '\n' := fun c hc => (hl c hc).1
  have hnul : ∀ c ∈ l ++ ['\n'], c ≠ Char.ofNat 0 := by
    intro c hc
    rcases List.mem_append.1 hc with h | h
    · exact (hl c h).2
    · have : c = '\n' := by simpa using h
      subst this; decide
  have hread : fgets 100 (l ++ '\n' :: rest) = some (l ++ ['\n'], rest) := by
    unfold fgets
    cases hcase : l ++ '\n' :: rest with
    | nil => simp at hcase
    | cons a as =>
      simp only
      rw [← hcase, readLine_line l rest hnl (100 - 1) (by omega)]
  simp [readBuffer, hread, cstr_of_noNul _ hnul]

theorem head_line (l : List Char) (hl : IsLine l) :
    (l ++ ['\n']).head? = some '\n' ↔ l = [] := by
  cases l with
  | nil => simp
  | cons c cs =>
    have hc : c ≠ '\n' := (hl c (List.mem_cons_self _ _)).1
    simp [hc]

theorem updateText_line (cap : Nat) (field : List Char) (buffer : Option (List Char))
    (l rest : List Char) (hl : IsLine l) (hlen : l.length ≤ 98) (hcap : l.length < cap) :
    ∃ b, updateText cap field buffer (l ++ '\n' :: rest)
      = .ok (if l = [] then field else l, some b, rest) := by
  have hnl : ∀ c ∈ l, c ≠ '\n' := fun c hc => (hl c hc).1
  by_cases h : l = []
  · subst h
    exact ⟨['\n'], by simp [updateText, readBuffer, fgets, readLine, cstr]⟩
  · refine ⟨l, ?_⟩
    have hh : ¬ (l ++ ['\n']).head? = some '\n' := fun e => h ((head_line l hl).1 e)
    simp only [updateText, readBuffer_line buffer l rest hl hlen, stripNewline_line l hnl]
    rw [if_neg hh, if_pos hcap, if_neg h]

theorem updateNumber_line {α : Type} [LE α] [DecidableRel (fun x y : α => x ≤ y)]
    (conv : List Char → Option α) (lo hi : α) (field : α)
    (buffer : Option (List Char)) (l rest : List Char) (hl : IsLine l) (hlen : l.length ≤ 98) :
    updateNumber conv (fun v => !(decide (lo ≤ v) && decide (v ≤ hi))) field buffer
        (l ++ '\n' :: rest)
      = .ok (answeredNumber conv lo hi field l, some (l ++ ['\n']), rest) := by
  simp only [updateNumber, readBuffer_line buffer l rest hl hlen, answeredNumber]
  by_cases h : l = []
  · subst h; simp
  · have hh : ¬ (l ++ ['\n']).head? = some '\n' := fun e => h ((head_line l hl).1 e)
    rw [if_neg hh, if_neg h]
    cases conv (l ++ ['\n']) with
    | none => rfl
    | some v =>
      by_cases hv : lo ≤ v ∧ v ≤ hi
      · simp [hv]
      · simp only [hv, if_false]
        have : (!(decide (lo ≤ v) && decide (v ≤ hi))) = true := by
          by_cases h1 : lo ≤ v <;> by_cases h2 : v ≤ hi <;> simp_all
        simp [this]

theorem updateStudentEdit_answers (L : Libc) (old : Student) (a : Answers) (rest : List Char)
    (ha : a.Fit) : updateStudentEdit L old (a.text rest) = .ok (answered L old a) := by
  obtain ⟨⟨h1, h2, h3, h4, h5⟩, n1, n2, n3, n4, n5⟩ := ha
  obtain ⟨b1, e1⟩ := updateText_line 50 old.name none a.name
    (a.department ++ '\n' :: (a.course ++ '\n' :: (a.year ++ '\n' :: (a.gpa ++ '\n' :: rest))))
    h1 (by omega) (by omega)
  obtain ⟨b2, e2⟩ := updateText_line 50 old.department (some b1) a.department
    (a.course ++ '\n' :: (a.year ++ '\n' :: (a.gpa ++ '\n' :: rest))) h2 (by omega) (by omega)
  obtain ⟨b3, e3⟩ := updateText_line 30 old.course (some b2) a.course
    (a.year ++ '\n' :: (a.gpa ++ '\n' :: rest)) h3 (by omega) (by omega)
  have e4 := updateNumber_line L.sscanf_d 2000 2025 old.year_joined (some b3) a.year
    (a.gpa ++ '\n' :: rest) h4 n4
  have e5 := updateNumber_line L.sscanf_f 0 4 old.gpa (some (a.year ++ ['\n'])) a.gpa rest h5 n5
  simp only [updateStudentEdit, Answers.text, e1, e2, e3, ge_iff_le, e4, e5, answered]

theorem updateStudentScan_split (k : Int) (pre : List Student) (old : Student)
    (post : List Student) (hpre : k ∉ pre.map Student.roll_no) (hold : old.roll_no = k) :
    ∀ i, updateStudentScan k (pre ++ old :: post) i = some (i + pre.length, old) := by
  induction pre with
  | nil => intro i; simp [updateStudentScan, hold]
  | cons p ps ih =>
    intro i
    have h1 : p.roll_no ≠ k := by
      intro e; apply hpre; simp [e.symm]
    have h2 : k ∉ ps.map Student.roll_no := by
      intro hm; apply hpre; simp only [List.map_cons, List.mem_cons]; exact Or.inr hm
    have harith : i + 1 + ps.length = i + (ps.length + 1) := by omega
    have hstep : updateStudentScan k (p :: (ps ++ old :: post)) i
        = updateStudentScan k (ps ++ old :: post) (i + 1) := by
      simp [updateStudentScan, h1]
    rw [List.cons_append, hstep, ih h2 (i + 1), List.length_cons, harith]

theorem set_split (pre : List Student) (old new : Student) (post : List Student) :
    (pre ++ old :: post).set pre.length new = pre ++ new :: post := by
  induction pre with
  | nil => rfl
  | cons p ps ih => simp [List.set, ih]

/-- The effect of `updateStudent` on answers that fit: the first record with
the roll number is replaced by the record the answers describe. -/
theorem updateStudent_answers (L : Libc) (fs : FileSys) (recs : List Student)
    (inp : UpdateInput) (k : Int) (a : Answers) (rest : List Char)
    (hdb : fs.db = some recs) (hk : k ∈ recs.map Student.roll_no) (hroll : inp.roll = some k)
    (htext : inp.text = a.text rest) (ha : a.Fit) (hwrite : inp.writeOk = true) :
    ∃ pre old post, recs = pre ++ old :: post ∧ k ∉ pre.map Student.roll_no ∧
      old.roll_no = k ∧
      updateStudent L fs inp
        = .ok ({ fs with db := some (pre ++ answered L old a :: post) }, .updated) := by
  obtain ⟨pre, old, post, hsplit, hold, hpre⟩ := split_at_roll k recs hk
  refine ⟨pre, old, post, hsplit, hpre, hold, ?_⟩
  have hscan := updateStudentScan_split k pre old post hpre hold 0
  rw [← hsplit] at hscan
  simp only [updateStudent, hroll, hdb, hscan, htext, updateStudentEdit_answers L old a rest ha,
    hwrite, if_true]
  rw [hsplit, Nat.zero_add, set_split]

/-- C5. For every store, every roll number `k` present in it and every
combination of answers to the five prompts (each blank or supplied, and
fitting the line buffer and the field it is for), `updateStudent` changes
only the first record with roll `k` and only the fields answered: the store
`pre ++ old :: post` becomes `pre ++ new :: post`, so the count and order
are unchanged and every other record is identical, and `new` has the roll
number of `old` and the value of `old` in every field left blank. -/
theorem updateStudent_frame (L : Libc) (fs : FileSys) (recs : List Student)
    (inp : UpdateInput) (k : Int) (a : Answers) (rest : List Char)
    (hdb : fs.db = some recs) (hk : k ∈ recs.map Student.roll_no) (hroll : inp.roll = some k)
    (htext : inp.text = a.text rest) (ha : a.Fit) (hwrite : inp.writeOk = true) :
    ∃ pre old post new, recs = pre ++ old :: post ∧ k ∉ pre.map Student.roll_no ∧
      old.roll_no = k ∧
      updateStudent L fs inp = .ok ({ fs with db := some (pre ++ new :: post) }, .updated) ∧
      (pre ++ new :: post).length = recs.length ∧
      new.roll_no = old.roll_no ∧
      (a.name = [] → new.name = old.name) ∧
      (a.department = [] → new.department = old.department) ∧
      (a.course = [] → new.course = old.course) ∧
      (a.year = [] → new.year_joined = old.year_joined) ∧
      (a.gpa = [] → new.gpa = old.gpa) := by
  obtain ⟨pre, old, post, hsplit, hpre, hold, hrun⟩ :=
    updateStudent_answers L fs recs inp k a rest hdb hk hroll htext ha hwrite
  refine ⟨pre, old, post, answered L old a, hsplit, hpre, hold, hrun, by simp [hsplit], rfl,
    ?_, ?_, ?_, ?_, ?_⟩
  · intro h; simp [answered, h]
  · intro h; simp [answered, h]
  · intro h; simp [answered, h]
  · intro h; simp [answered, answeredNumber, h]
  · intro h; simp [answered, answeredNumber, h]

theorem updateStudent_frame_witness :
    ∃ pre old post new, [sampleA, sampleB, sampleC] = pre ++ old :: post ∧
      (2 : Int) ∉ pre.map Student.roll_no ∧ old.roll_no = 2 ∧
      updateStudent sampleLibc ⟨some [sampleA, sampleB, sampleC], none, none⟩
          ⟨some 2, sampleAnswers.text [], true⟩
        = .ok ({ (⟨some [sampleA, sampleB, sampleC], none, none⟩ : FileSys) with
                  db := some (pre ++ new :: post) }, .updated) ∧
      (pre ++ new :: post).length = [sampleA, sampleB, sampleC].length ∧
      new.roll_no = old.roll_no ∧
      (sampleAnswers.name = [] → new.name = old.name) ∧
      (sampleAnswers.department = [] → new.department = old.department) ∧
      (sampleAnswers.course = [] → new.course = old.course) ∧
      (sampleAnswers.year = [] → new.year_joined = old.year_joined) ∧
      (sampleAnswers.gpa = [] → new.gpa = old.gpa) :=
  updateStudent_frame sampleLibc ⟨some [sampleA, sampleB, sampleC], none, none⟩
    [sampleA, sampleB, sampleC] ⟨some 2, sampleAnswers.text [], true⟩ 2 sampleAnswers [] rfl
    (by decide) rfl rfl (by decide) rfl

/-- C6. For every stored record and every `updateStudent` on it with answers
that fit, a supplied year that converts to a value outside 2000..2025 (such
as 1999) and a supplied GPA that converts to a value outside 0..4 (such as
4.5) are discarded, the field keeping its prior value, while every text
answer supplied and every scalar supplied within its range is applied, and
the update succeeds. -/
theorem updateStudent_discards_out_of_range (L : Libc) (fs : FileSys) (recs : List Student)
    (inp : UpdateInput) (k : Int) (a : Answers) (rest : List Char)
    (hdb : fs.db = some recs) (hk : k ∈ recs.map Student.roll_no) (hroll : inp.roll = some k)
    (htext : inp.text = a.text rest) (ha : a.Fit) (hwrite : inp.writeOk = true) :
    ∃ pre old post new, recs = pre ++ old :: post ∧ k ∉ pre.map Student.roll_no ∧
      old.roll_no = k ∧
      updateStudent L fs inp = .ok ({ fs with db := some (pre ++ new :: post) }, .updated) ∧
      (∀ y, a.year ≠ [] → L.sscanf_d (a.year ++ ['\n']) = some y → (y < 2000 ∨ 2025 < y) →
        new.year_joined = old.year_joined) ∧
      (∀ g, a.gpa ≠ [] → L.sscanf_f (a.gpa ++ ['\n']) = some g → (g < 0 ∨ 4 < g) →
        new.gpa = old.gpa) ∧
      (a.name ≠ [] → new.name = a.name) ∧
      (a.department ≠ [] → new.department = a.department) ∧
      (a.course ≠ [] → new.course = a.course) ∧
      (∀ y, a.year ≠ [] → L.sscanf_d (a.year ++ ['\n']) = some y → 2000 ≤ y → y ≤ 2025 →
        new.year_joined = y) ∧
      (∀ g, a.gpa ≠ [] → L.sscanf_f (a.gpa ++ ['\n']) = some g → 0 ≤ g → g ≤ 4 →
        new.gpa = g) := by
  obtain ⟨pre, old, post, hsplit, hpre, hold, hrun⟩ :=
    updateStudent_answers L fs recs inp k a rest hdb hk hroll htext ha hwrite
  refine ⟨pre, old, post, answered L old a, hsplit, hpre, hold, hrun, ?_, ?_, ?_, ?_, ?_, ?_, ?_⟩
  · intro y hy hconv hout
    have : ¬ (2000 ≤ y ∧ y ≤ 2025) := by omega
    simp [answered, answeredNumber, hy, hconv, this]
  · intro g hg hconv hout
    have : ¬ (0 ≤ g ∧ g ≤ 4) := by
      rintro ⟨h1, h2⟩
      rcases hout with h | h
      · exact absurd h1 (not_le.2 h)
      · exact absurd h2 (not_le.2 h)
    simp [answered, answeredNumber, hg, hconv, this]
  · intro h; simp [answered, h]
  · intro h; simp [answered, h]
  · intro h; simp [answered, h]
  · intro y hy hconv h1 h2
    simp [answered, answeredNumber, hy, hconv, h1, h2]
  · intro g hg hconv h1 h2
    simp [answered, answeredNumber, hg, hconv, h1, h2]

theorem updateStudent_discards_out_of_range_witness :
    (sampleLibc.sscanf_d (sampleAnswers.year ++ ['\n']) = some 1999 ∧
      sampleLibc.sscanf_f (sampleAnswers.gpa ++ ['\n']) = some (9 / 2)) ∧
    ∃ pre old post new, [sampleA, sampleB, sampleC] = pre ++ old :: post ∧
      (2 : Int) ∉ pre.map Student.roll_no ∧ old.roll_no = 2 ∧
      updateStudent sampleLibc ⟨some [sampleA, sampleB, sampleC], none, none⟩
          ⟨some 2, sampleAnswers.text [], true⟩
        = .ok ({ (⟨some [sampleA, sampleB, sampleC], none, none⟩ : FileSys) with
                  db := some (pre ++ new :: post) }, .updated) ∧
      (∀ y, sampleAnswers.year ≠ [] →
        sampleLibc.sscanf_d (sampleAnswers.year ++ ['\n']) = some y → (y < 2000 ∨ 2025 < y) →
        new.year_joined = old.year_joined) ∧
      (∀ g, sampleAnswers.gpa ≠ [] →
        sampleLibc.sscanf_f (sampleAnswers.gpa ++ ['\n']) = some g → (g < 0 ∨ 4 < g) →
        new.gpa = old.gpa) ∧
      (sampleAnswers.name ≠ [] → new.name = sampleAnswers.name) ∧
      (sampleAnswers.department ≠ [] → new.department = sampleAnswers.department) ∧
      (sampleAnswers.course ≠ [] → new.course = sampleAnswers.course) ∧
      (∀ y, sampleAnswers.year ≠ [] →
        sampleLibc.sscanf_d (sampleAnswers.year ++ ['\n']) = some y → 2000 ≤ y → y ≤ 2025 →
        new.year_joined = y) ∧
      (∀ g, sampleAnswers.gpa ≠ [] →
        sampleLibc.sscanf_f (sampleAnswers.gpa ++ ['\n']) = some g → 0 ≤ g → g ≤ 4 →
        new.gpa = g) :=
  ⟨⟨by decide, by decide!⟩,
    updateStudent_discards_out_of_range sampleLibc ⟨some [sampleA, sampleB, sampleC], none, none⟩
      [sampleA, sampleB, sampleC] ⟨some 2, sampleAnswers.text [], true⟩ 2 sampleAnswers [] rfl
      (by decide) rfl rfl (by decide) rfl⟩

/-- The worked example of the update: the answers `Zed`, blank, blank, `1999`
and `4.5` for roll number 2 change the name of that record and nothing else. -/
theorem updateStudent_sampleAnswers :
    updateStudent sampleLibc ⟨some [sampleA, sampleB, sampleC], none, none⟩
        ⟨some 2, sampleAnswers.text [], true⟩
      = .ok (⟨some [sampleA, { sampleB with name := "Zed".toList }, sampleC], none, none⟩,
          .updated) := by
  decide!

/-! ## Uniqueness of roll numbers -/

theorem readLine_length (n : Nat) : ∀ inp, (readLine n inp).1.length ≤ n := by
  induction n with
  | zero => intro inp; simp [readLine]
  | succ n ih =>
    intro inp
    cases inp with
    | nil => simp [readLine]
    | cons c cs =>
      by_cases h : c = '\n'
      · simp [readLine, h]
      · simp [readLine, h, ih cs]

theorem readField_length (size : Nat) (stdin f rest : List Char)
    (h : readField size stdin = .ok (f, rest)) : f.length ≤ size - 1 := by
  unfold readField fgets at h
  cases stdin with
  | nil => simp at h
  | cons c cs =>
    simp only [Except.ok.injEq, Prod.mk.injEq] at h
    rw [← h.1]
    calc (stripNewline (cstr (readLine (size - 1) (c :: cs)).1)).length
        ≤ (cstr (readLine (size - 1) (c :: cs)).1).length := List.Sublist.length_le (List.takeWhile_sublist _)
      _ ≤ (readLine (size - 1) (c :: cs)).1.length := List.Sublist.length_le (List.takeWhile_sublist _)
      _ ≤ size - 1 := readLine_length _ _

/-- What `addStudent` can do to the store: nothing, create the empty file, or
append one record with a fresh roll number, a non-empty name and text fields
within their capacities. -/
theorem addStudent_db (fs fs1 : FileSys) (inp : AddInput) (out : AddOutcome)
    (h : addStudent fs inp = .ok (fs1, out)) :
    fs1.db = fs.db ∨ fs1.db = some (fs.db.getD []) ∨
      ∃ r, r.roll_no ∉ rolls fs ∧ r.Fits ∧ r.name ≠ [] ∧ out = .added r ∧
        fs1.db = some (fs.db.getD [] ++ [r]) := by
  unfold addStudent at h
  cases hopen : inp.openOk with
  | false =>
    simp only [hopen, if_true, Except.ok.injEq, Prod.mk.injEq] at h
    left; rw [← h.1]
  | true =>
  simp only [hopen, Bool.true_eq_false, Bool.false_eq_true, if_true, if_false] at h
  cases hroll : readRoll inp.rolls with
  | none => simp [hroll] at h
  | some roll_no =>
  simp only [hroll] at h
  cases hdup : isDuplicate { fs with db := some (fs.db.getD []) } roll_no with
  | true =>
    simp only [hdup, if_true, Except.ok.injEq, Prod.mk.injEq] at h
    right; left; rw [← h.1]
  | false =>
  simp only [hdup, Bool.true_eq_false, Bool.false_eq_true, if_true, if_false] at h
  cases hname : readField 50 inp.text with
  | error e => simp [hname] at h
  | ok p1 =>
  obtain ⟨name, t1⟩ := p1
  simp only [hname] at h
  by_cases hne : name.length = 0
  · simp only [hne, if_true, Except.ok.injEq, Prod.mk.injEq] at h
    right; left; rw [← h.1]
  simp only [hne, if_false] at h
  cases hdept : readField 50 t1 with
  | error e => simp [hdept] at h
  | ok p2 =>
  obtain ⟨department, t2⟩ := p2
  simp only [hdept] at h
  cases hcourse : readField 30 t2 with
  | error e => simp [hcourse] at h
  | ok p3 =>
  obtain ⟨course, t3⟩ := p3
  simp only [hcourse] at h
  cases hyear : readYear inp.years with
  | none => simp [hyear] at h
  | some year_joined =>
  simp only [hyear] at h
  cases hgpa : readGpa inp.gpas with
  | none => simp [hgpa] at h
  | some gpa =>
  simp only [hgpa] at h
  cases hwrite : inp.writeOk with
  | true =>
    simp only [hwrite, if_true, Except.ok.injEq, Prod.mk.injEq] at h
    right; right
    refine ⟨_, ?_, ?_, ?_, h.2.symm, by rw [← h.1]⟩
    · intro hmem
      have := (isDuplicateLoop_iff _ _).2 hmem
      simp only [isDuplicate] at hdup
      rw [hdup] at this
      exact Bool.noConfusion this
    · exact ⟨readField_length 50 _ _ _ hname, readField_length 50 _ _ _ hdept,
        readField_length 30 _ _ _ hcourse⟩
    · intro hnil
      apply hne
      simp only at hnil
      simp [hnil]
  | false =>
    simp only [hwrite, Bool.true_eq_false, Bool.false_eq_true, if_true, if_false, Except.ok.injEq, Prod.mk.injEq] at h
    right; left
    rw [← h.1]

theorem addStudent_nodup (fs fs1 : FileSys) (inp : AddInput) (out : AddOutcome)
    (h : addStudent fs inp = .ok (fs1, out)) (hu : (rolls fs).Nodup) : (rolls fs1).Nodup := by
  rcases addStudent_db fs fs1 inp out h with e | e | ⟨r, hr, _, _, _, e⟩
  · simpa [rolls, e] using hu
  · simpa [rolls, e] using hu
  · simp only [rolls, e, Option.getD_some, List.map_append, List.map_cons, List.map_nil]
    rw [List.nodup_append]
    refine ⟨hu, by simp, ?_⟩
    intro x hx hx2
    have : x = r.roll_no := by simpa using hx2
    subst this
    exact hr hx

theorem updateStudentScan_some (k : Int) (recs : List Student) :
    ∀ i pos st, updateStudentScan k recs i = some (pos, st) →
      ∃ pre post, recs = pre ++ st :: post ∧ pos = i + pre.length ∧ st.roll_no = k ∧
        k ∉ pre.map Student.roll_no := by
  induction recs with
  | nil => intro i pos st h; simp [updateStudentScan] at h
  | cons r rs ih =>
    intro i pos st h
    by_cases hr : r.roll_no = k
    · simp only [updateStudentScan, hr, if_true, Option.some.injEq, Prod.mk.injEq] at h
      exact ⟨[], rs, by rw [← h.2]; rfl, by simp [h.1], by rw [← h.2]; exact hr, by simp⟩
    · simp only [updateStudentScan, hr, if_false] at h
      obtain ⟨pre, post, hsplit, hpos, hst, hpre⟩ := ih (i + 1) pos st h
      refine ⟨r :: pre, post, by simp [hsplit], by simp [hpos]; omega, hst, ?_⟩
      simp only [List.map_cons, List.mem_cons, not_or]
      exact ⟨fun e => hr e.symm, hpre⟩

theorem updateStudentEdit_roll (L : Libc) (st st1 : Student) (stdin : List Char)
    (h : updateStudentEdit L st stdin = .ok st1) : st1.roll_no = st.roll_no := by
  unfold updateStudentEdit at h
  repeat' split at h
  all_goals first
    | (simp only [Except.ok.injEq] at h; rw [← h])
    | simp at h

/-- The function `updateStudent` never changes the roll numbers of the store. -/
theorem updateStudent_rolls (L : Libc) (fs fs1 : FileSys) (inp : UpdateInput)
    (out : UpdateOutcome) (h : updateStudent L fs inp = .ok (fs1, out)) :
    rolls fs1 = rolls fs := by
  unfold updateStudent at h
  split at h
  · simp only [Except.ok.injEq, Prod.mk.injEq] at h; rw [← h.1]
  split at h
  · simp only [Except.ok.injEq, Prod.mk.injEq] at h; rw [← h.1]
  rename_i recs hdb
  split at h
  · simp only [Except.ok.injEq, Prod.mk.injEq] at h; rw [← h.1]
  rename_i pos st hscan
  split at h
  · simp at h
  rename_i st1 hedit
  split at h
  · simp only [Except.ok.injEq, Prod.mk.injEq] at h
    obtain ⟨pre, post, hsplit, hpos, hst, _⟩ := updateStudentScan_some _ recs 0 pos st hscan
    have hroll := updateStudentEdit_roll L st st1 _ hedit
    rw [← h.1]
    simp only [rolls, hdb, Option.getD_some]
    rw [hsplit, hpos, Nat.zero_add, set_split]
    simp [hroll]
  · simp only [Except.ok.injEq, Prod.mk.injEq] at h; rw [← h.1]

theorem deleteStudentCopy_sublist (k : Int) (w : Nat → Bool) (recs : List Student) :
    ∀ i temp, ∃ l, deleteStudentCopy k w recs i temp = temp ++ l ∧ l.Sublist recs := by
  induction recs with
  | nil => intro i temp; exact ⟨[], by simp [deleteStudentCopy], List.Sublist.refl _⟩
  | cons r rs ih =>
    intro i temp
    by_cases hr : r.roll_no = k
    · obtain ⟨l, hl, hsub⟩ := ih (i + 1) temp
      exact ⟨l, by simp [deleteStudentCopy, hr, hl], hsub.cons r⟩
    · by_cases hw : w i = true
      · obtain ⟨l, hl, hsub⟩ := ih (i + 1) (temp ++ [r])
        exact ⟨r :: l, by simp [deleteStudentCopy, hr, hw, hl], hsub.cons₂ r⟩
      · obtain ⟨l, hl, hsub⟩ := ih (i + 1) temp
        exact ⟨l, by simp [deleteStudentCopy, hr, hw, hl], hsub.cons r⟩

/-- What `deleteStudent` can do to the store: nothing, remove the file, or
replace it by a sub-sequence of its records. -/
theorem deleteStudent_db (fs fs1 : FileSys) (inp : DeleteInput) (out : DeleteOutcome)
    (h : deleteStudent fs inp = .ok (fs1, out)) :
    fs1.db = fs.db ∨ fs1.db = none ∨
      ∃ l, l.Sublist (fs.db.getD []) ∧ fs1.db = some l := by
  unfold deleteStudent at h
  cases hroll : inp.roll with
  | none =>
    simp only [hroll, Except.ok.injEq, Prod.mk.injEq] at h
    left; rw [← h.1]
  | some searchRoll =>
  simp only [hroll] at h
  cases hdb : fs.db with
  | none =>
    simp only [hdb, Except.ok.injEq, Prod.mk.injEq] at h
    left; rw [← h.1, hdb]
  | some recs =>
  simp only [hdb] at h
  cases hscan : deleteStudentScan searchRoll recs with
  | none =>
    simp only [hscan, Except.ok.injEq, Prod.mk.injEq] at h
    left; rw [← h.1, hdb]
  | some toDelete =>
  simp only [hscan] at h
  cases hconfirm : inp.confirm with
  | none => simp [hconfirm] at h
  | some confirm =>
  simp only [hconfirm] at h
  by_cases hc : confirm ≠ 'y' ∧ confirm ≠ 'Y'
  · rw [if_pos hc] at h
    simp only [Except.ok.injEq, Prod.mk.injEq] at h
    left; rw [← h.1, hdb]
  rw [if_neg hc] at h
  cases htemp : inp.tempOpenOk with
  | false =>
    simp only [htemp, if_true, Except.ok.injEq, Prod.mk.injEq] at h
    left; rw [← h.1, hdb]
  | true =>
  simp only [htemp, Bool.true_eq_false, Bool.false_eq_true, if_true, if_false] at h
  cases hremove : inp.removeOk with
  | false =>
    simp only [hremove, if_true, Except.ok.injEq, Prod.mk.injEq] at h
    left; rw [← h.1]
  | true =>
  simp only [hremove, Bool.true_eq_false, Bool.false_eq_true, if_true, if_false] at h
  cases hrename : inp.renameOk with
  | false =>
    simp only [hrename, if_true, Except.ok.injEq, Prod.mk.injEq] at h
    right; left; rw [← h.1]
  | true =>
  simp only [hrename, Bool.true_eq_false, Bool.false_eq_true, if_true, if_false, Except.ok.injEq, Prod.mk.injEq] at h
  right; right
  obtain ⟨l, hl, hsub⟩ := deleteStudentCopy_sublist searchRoll inp.tempWriteOk recs 0 []
  refine ⟨l, by simpa using hsub, ?_⟩
  rw [← h.1]
  simpa using hl

theorem deleteStudent_nodup (fs fs1 : FileSys) (inp : DeleteInput) (out : DeleteOutcome)
    (h : deleteStudent fs inp = .ok (fs1, out)) (hu : (rolls fs).Nodup) : (rolls fs1).Nodup := by
  rcases deleteStudent_db fs fs1 inp out h with e | e | ⟨l, hsub, e⟩
  · simpa [rolls, e] using hu
  · simp [rolls, e]
  · simp only [rolls, e, Option.getD_some]
    exact List.Nodup.sublist (hsub.map _) hu

theorem step_nodup (L : Libc) (fs fs1 : FileSys) (op : Op) (h : step L fs op = .ok fs1)
    (hu : (rolls fs).Nodup) : (rolls fs1).Nodup := by
  cases op with
  | add inp =>
    simp only [step] at h
    split at h
    · simp at h
    · rename_i f o hrun
      simp only [Except.ok.injEq] at h
      subst h
      exact addStudent_nodup fs _ inp o hrun hu
  | update inp =>
    simp only [step] at h
    split at h
    · simp at h
    · rename_i f o hrun
      simp only [Except.ok.injEq] at h
      subst h
      rw [updateStudent_rolls L fs _ inp o hrun]
      exact hu
  | delete inp =>
    simp only [step] at h
    split at h
    · simp at h
    · rename_i f o hrun
      simp only [Except.ok.injEq] at h
      subst h
      exact deleteStudent_nodup fs _ inp o hrun hu

theorem run_nodup (L : Libc) (ops : List Op) :
    ∀ fs fs1, run L fs ops = .ok fs1 → (rolls fs).Nodup → (rolls fs1).Nodup := by
  induction ops with
  | nil =>
    intro fs fs1 h hu
    simp only [run, Except.ok.injEq] at h
    subst h
    exact hu
  | cons op ops ih =>
    intro fs fs1 h hu
    simp only [run] at h
    split at h
    · simp at h
    · rename_i f hstep
      exact ih f fs1 h (step_nodup L fs f op hstep hu)

/-- C7. Uniqueness of `roll_no` is an invariant of the store: starting from
the absent or the empty store, after any finite sequence of `addStudent`,
`updateStudent` and `deleteStudent` with arbitrary inputs, no two stored
records have the same roll number. -/
theorem roll_no_unique_invariant (L : Libc) (fs0 fs : FileSys) (ops : List Op)
    (hinit : fs0.db = none ∨ fs0.db = some []) (hrun : run L fs0 ops = .ok fs) :
    (rolls fs).Nodup := by
  apply run_nodup L ops fs0 fs hrun
  rcases hinit with e | e <;> simp [rolls, e]

theorem roll_no_unique_invariant_witness :
    run sampleLibc ⟨none, none, none⟩ sampleOps
        = .ok ⟨some [{ sampleA with name := "Zed".toList }], none, none⟩ ∧
      (rolls ⟨some [{ sampleA with name := "Zed".toList }], none, none⟩).Nodup :=
  ⟨by decide,
    roll_no_unique_invariant sampleLibc ⟨none, none, none⟩ _ sampleOps (Or.inl rfl) (by decide)⟩

/-! ## displayStatistics -/

/-- C8. The highest GPA is not always reported with the name of the first
record achieving it. For the store holding the single record `sampleZero`
(name `Ann`, GPA 0.0, within the domain), `displayStatistics` reports the
highest GPA 0 with an empty top-performer name: `highestGPA` starts at `0.0`
and the name is copied only on a strictly greater GPA. -/
theorem displayStatistics_zero_gpa_no_holder :
    displayStatistics ⟨some [sampleZero], none, none⟩
        = .report
            { count := 1, highestGPA := 0, topStudent := [], lowestGPA := 0,
              weakStudent := "Ann".toList, buckets := ⟨0, 0, 0, 1⟩ } ∧
      (0 ≤ sampleZero.gpa ∧ sampleZero.gpa ≤ 4) ∧
      sampleZero.gpa = 0 ∧ sampleZero.name = "Ann".toList ∧ sampleZero.name ≠ [] := by
  refine ⟨by decide!, by decide, rfl, rfl, by decide⟩

theorem statsStep_count (acc : StatsAcc) (s : Student) :
    (statsStep acc s).count = acc.count + 1 := by
  simp only [statsStep]
  split_ifs <;> rfl

theorem statsLoop_count (recs : List Student) :
    ∀ acc, (statsLoop recs acc).count = acc.count + recs.length := by
  induction recs with
  | nil => intro acc; simp [statsLoop]
  | cons r rs ih =>
    intro acc
    simp only [statsLoop, ih, statsStep_count, List.length_cons]
    omega

theorem statsStep_highest (acc : StatsAcc) (s : Student) :
    (statsStep acc s).highestGPA = (if s.gpa > acc.highestGPA then s.gpa else acc.highestGPA) ∧
    (statsStep acc s).topStudent
      = (if s.gpa > acc.highestGPA then s.name else acc.topStudent) := by
  simp only [statsStep]
  split_ifs <;> exact ⟨rfl, rfl⟩

theorem statsStep_lowest (acc : StatsAcc) (s : Student) :
    (statsStep acc s).lowestGPA = (if s.gpa < acc.lowestGPA then s.gpa else acc.lowestGPA) ∧
    (statsStep acc s).weakStudent
      = (if s.gpa < acc.lowestGPA then s.name else acc.weakStudent) := by
  simp only [statsStep]
  split_ifs <;> exact ⟨rfl, rfl⟩

/-- The first loop of `displayStatistics` on the highest GPA: nothing changes
when no record exceeds the running value, and otherwise the loop ends on the
first record that achieves the greatest GPA of the list. -/
theorem statsLoop_highest (recs : List Student) :
    ∀ acc : StatsAcc,
      ((∀ x ∈ recs, x.gpa ≤ acc.highestGPA) →
        (statsLoop recs acc).highestGPA = acc.highestGPA ∧
        (statsLoop recs acc).topStudent = acc.topStudent) ∧
      ((∃ x ∈ recs, acc.highestGPA < x.gpa) →
        ∃ pre r post, recs = pre ++ r :: post ∧
          (statsLoop recs acc).highestGPA = r.gpa ∧ (statsLoop recs acc).topStudent = r.name ∧
          (∀ x ∈ pre, x.gpa < r.gpa) ∧ (∀ x ∈ post, x.gpa ≤ r.gpa) ∧
          acc.highestGPA < r.gpa) := by
  induction recs with
  | nil =>
    intro acc
    refine ⟨fun _ => by simp [statsLoop], ?_⟩
    rintro ⟨x, hx, _⟩
    simp at hx
  | cons s rest ih =>
    intro acc
    have ih1 := ih (statsStep acc s)
    obtain ⟨eh, et⟩ := statsStep_highest acc s
    simp only [statsLoop]
    by_cases hs : s.gpa > acc.highestGPA
    · rw [if_pos hs] at eh et
      constructor
      · intro hall
        exact absurd (hall s (List.mem_cons_self _ _)) (not_le.2 hs)
      · intro _
        by_cases hrest : ∀ x ∈ rest, x.gpa ≤ s.gpa
        · obtain ⟨e1, e2⟩ := ih1.1 (by rw [eh]; exact hrest)
          exact ⟨[], s, rest, rfl, by rw [e1, eh], by rw [e2, et], by simp, hrest, hs⟩
        · push_neg at hrest
          obtain ⟨x, hx, hlt⟩ := hrest
          obtain ⟨pre, r, post, hsplit, e1, e2, hpre, hpost, hacc⟩ :=
            ih1.2 ⟨x, hx, by rw [eh]; exact hlt⟩
          rw [eh] at hacc
          refine ⟨s :: pre, r, post, by simp [hsplit], e1, e2, ?_, hpost, lt_trans hs hacc⟩
          intro y hy
          rcases List.mem_cons.1 hy with e | h
          · rw [e]; exact hacc
          · exact hpre y h
    · rw [if_neg hs] at eh et
      have hs2 : s.gpa ≤ acc.highestGPA := not_lt.1 hs
      constructor
      · intro hall
        have := ih1.1 (by rw [eh]; intro x hx; exact hall x (List.mem_cons_of_mem _ hx))
        rw [eh, et] at this
        exact this
      · rintro ⟨x, hx, hlt⟩
        have hx2 : x ∈ rest := by
          rcases List.mem_cons.1 hx with e | h
          · rw [e] at hlt; exact absurd hlt (not_lt.2 hs2)
          · exact h
        obtain ⟨pre, r, post, hsplit, e1, e2, hpre, hpost, hacc⟩ :=
          ih1.2 ⟨x, hx2, by rw [eh]; exact hlt⟩
        rw [eh] at hacc
        refine ⟨s :: pre, r, post, by simp [hsplit], e1, e2, ?_, hpost, hacc⟩
        intro y hy
        rcases List.mem_cons.1 hy with e | h
        · rw [e]; exact lt_of_le_of_lt hs2 hacc
        · exact hpre y h

/-- The first loop of `displayStatistics` on the lowest GPA, as
`statsLoop_highest` with the order reversed. -/
theorem statsLoop_lowest (recs : List Student) :
    ∀ acc : StatsAcc,
      ((∀ x ∈ recs, acc.lowestGPA ≤ x.gpa) →
        (statsLoop recs acc).lowestGPA = acc.lowestGPA ∧
        (statsLoop recs acc).weakStudent = acc.weakStudent) ∧
      ((∃ x ∈ recs, x.gpa < acc.lowestGPA) →
        ∃ pre r post, recs = pre ++ r :: post ∧
          (statsLoop recs acc).lowestGPA = r.gpa ∧ (statsLoop recs acc).weakStudent = r.name ∧
          (∀ x ∈ pre, r.gpa < x.gpa) ∧ (∀ x ∈ post, r.gpa ≤ x.gpa) ∧
          r.gpa < acc.lowestGPA) := by
  induction recs with
  | nil =>
    intro acc
    refine ⟨fun _ => by simp [statsLoop], ?_⟩
    rintro ⟨x, hx, _⟩
    simp at hx
  | cons s rest ih =>
    intro acc
    have ih1 := ih (statsStep acc s)
    obtain ⟨eh, et⟩ := statsStep_lowest acc s
    simp only [statsLoop]
    by_cases hs : s.gpa < acc.lowestGPA
    · rw [if_pos hs] at eh et
      constructor
      · intro hall
        exact absurd (hall s (List.mem_cons_self _ _)) (not_le.2 hs)
      · intro _
        by_cases hrest : ∀ x ∈ rest, s.gpa ≤ x.gpa
        · obtain ⟨e1, e2⟩ := ih1.1 (by rw [eh]; exact hrest)
          exact ⟨[], s, rest, rfl, by rw [e1, eh], by rw [e2, et], by simp, hrest, hs⟩
        · push_neg at hrest
          obtain ⟨x, hx, hlt⟩ := hrest
          obtain ⟨pre, r, post, hsplit, e1, e2, hpre, hpost, hacc⟩ :=
            ih1.2 ⟨x, hx, by rw [eh]; exact hlt⟩
          rw [eh] at hacc
          refine ⟨s :: pre, r, post, by simp [hsplit], e1, e2, ?_, hpost, lt_trans hacc hs⟩
          intro y hy
          rcases List.mem_cons.1 hy with e | h
          · rw [e]; exact hacc
          · exact hpre y h
    · rw [if_neg hs] at eh et
      have hs2 : acc.lowestGPA ≤ s.gpa := not_lt.1 hs
      constructor
      · intro hall
        have := ih1.1 (by rw [eh]; intro x hx; exact hall x (List.mem_cons_of_mem _ hx))
        rw [eh, et] at this
        exact this
      · rintro ⟨x, hx, hlt⟩
        have hx2 : x ∈ rest := by
          rcases List.mem_cons.1 hx with e | h
          · rw [e] at hlt; exact absurd hlt (not_lt.2 hs2)
          · exact h
        obtain ⟨pre, r, post, hsplit, e1, e2, hpre, hpost, hacc⟩ :=
          ih1.2 ⟨x, hx2, by rw [eh]; exact hlt⟩
        rw [eh] at hacc
        refine ⟨s :: pre, r, post, by simp [hsplit], e1, e2, ?_, hpost, hacc⟩
        intro y hy
        rcases List.mem_cons.1 hy with e | h
        · rw [e]; exact lt_of_lt_of_le hacc hs2
        · exact hpre y h

/-- The extremes reported by `displayStatistics` away from the bounds of the
domain: when some stored GPA is above 0.0, the highest GPA reported is the
greatest GPA of the store and the top-performer name is that of the first
record achieving it; when some stored GPA is below 4.0, likewise for the
lowest GPA and the first record achieving it. -/
theorem displayStatistics_extremes (fs : FileSys) (recs : List Student)
    (hdb : fs.db = some recs) (hne : recs ≠ []) :
    ∃ st, displayStatistics fs = .report st ∧
      ((∃ x ∈ recs, 0 < x.gpa) →
        ∃ pre r post, recs = pre ++ r :: post ∧ st.highestGPA = r.gpa ∧
          st.topStudent = r.name ∧ (∀ x ∈ pre, x.gpa < r.gpa) ∧ (∀ x ∈ post, x.gpa ≤ r.gpa)) ∧
      ((∃ x ∈ recs, x.gpa < 4) →
        ∃ pre r post, recs = pre ++ r :: post ∧ st.lowestGPA = r.gpa ∧
          st.weakStudent = r.name ∧ (∀ x ∈ pre, r.gpa < x.gpa) ∧ (∀ x ∈ post, r.gpa ≤ x.gpa)) := by
  have hcount : (statsLoop recs statsInit).count = recs.length := by
    rw [statsLoop_count]; simp [statsInit]
  have hpos : ¬ (statsLoop recs statsInit).count = 0 := by
    rw [hcount]
    intro h
    exact hne (List.length_eq_zero.1 h)
  have hrun : displayStatistics fs
      = .report
          { count := (statsLoop recs statsInit).count
            highestGPA := (statsLoop recs statsInit).highestGPA
            topStudent := (statsLoop recs statsInit).topStudent
            lowestGPA := (statsLoop recs statsInit).lowestGPA
            weakStudent := (statsLoop recs statsInit).weakStudent
            buckets := bucketLoop recs ⟨0, 0, 0, 0⟩ } := by
    simp only [displayStatistics, hdb, hpos, if_false]
  refine ⟨_, hrun, ?_, ?_⟩
  · intro h
    obtain ⟨pre, r, post, hsplit, e1, e2, hpre, hpost, _⟩ :=
      (statsLoop_highest recs statsInit).2 h
    exact ⟨pre, r, post, hsplit, e1, e2, hpre, hpost⟩
  · intro h
    obtain ⟨pre, r, post, hsplit, e1, e2, hpre, hpost, _⟩ :=
      (statsLoop_lowest recs statsInit).2 h
    exact ⟨pre, r, post, hsplit, e1, e2, hpre, hpost⟩

/-- A GPA within 0..4 lies in exactly one band, the one whose counter
`displayStatistics` increments. -/
theorem band_cases (r : Student) (hr : 0 ≤ r.gpa ∧ r.gpa ≤ 4) :
    (r.gpa ≥ 7 / 2 ∧ isExcellent r = true ∧ isGood r = false ∧ isAverage r = false ∧
        isPoor r = false) ∨
    (¬ r.gpa ≥ 7 / 2 ∧ r.gpa ≥ 3 ∧ isExcellent r = false ∧ isGood r = true ∧
        isAverage r = false ∧ isPoor r = false) ∨
    (¬ r.gpa ≥ 7 / 2 ∧ ¬ r.gpa ≥ 3 ∧ r.gpa ≥ 2 ∧ isExcellent r = false ∧ isGood r = false ∧
        isAverage r = true ∧ isPoor r = false) ∨
    (¬ r.gpa ≥ 7 / 2 ∧ ¬ r.gpa ≥ 3 ∧ ¬ r.gpa ≥ 2 ∧ isExcellent r = false ∧ isGood r = false ∧
        isAverage r = false ∧ isPoor r = true) := by
  by_cases h1 : r.gpa ≥ 7 / 2
  · have e1 : isExcellent r = true := by simp [isExcellent]; exact ⟨h1, hr.2⟩
    have e2 : isGood r = false := by simp [isGood]; intro _; linarith
    have e3 : isAverage r = false := by simp [isAverage]; intro _; linarith
    have e4 : isPoor r = false := by simp [isPoor]; intro _; linarith
    exact Or.inl ⟨h1, e1, e2, e3, e4⟩
  · by_cases h2 : r.gpa ≥ 3
    · have e1 : isExcellent r = false := by simp [isExcellent]; intro h; exact absurd h h1
      have e2 : isGood r = true := by simp [isGood]; exact ⟨h2, lt_of_not_ge h1⟩
      have e3 : isAverage r = false := by simp [isAverage]; intro _; linarith
      have e4 : isPoor r = false := by simp [isPoor]; intro _; linarith
      exact Or.inr (Or.inl ⟨h1, h2, e1, e2, e3, e4⟩)
    · by_cases h3 : r.gpa ≥ 2
      · have e1 : isExcellent r = false := by simp [isExcellent]; intro h; exact absurd h h1
        have e2 : isGood r = false := by simp [isGood]; intro h; exact absurd h h2
        have e3 : isAverage r = true := by simp [isAverage]; exact ⟨h3, lt_of_not_ge h2⟩
        have e4 : isPoor r = false := by simp [isPoor]; intro _; linarith
        exact Or.inr (Or.inr (Or.inl ⟨h1, h2, h3, e1, e2, e3, e4⟩))
      · have e1 : isExcellent r = false := by simp [isExcellent]; intro h; exact absurd h h1
        have e2 : isGood r = false := by simp [isGood]; intro h; exact absurd h h2
        have e3 : isAverage r = false := by simp [isAverage]; intro h; exact absurd h h3
        have e4 : isPoor r = true := by simp [isPoor]; exact ⟨hr.1, lt_of_not_ge h3⟩
        exact Or.inr (Or.inr (Or.inr ⟨h1, h2, h3, e1, e2, e3, e4⟩))

theorem bandsOf_eq_one (r : Student) (hr : 0 ≤ r.gpa ∧ r.gpa ≤ 4) : bandsOf r = 1 := by
  unfold bandsOf
  rcases band_cases r hr with ⟨_, e1, e2, e3, e4⟩ | ⟨_, _, e1, e2, e3, e4⟩ |
    ⟨_, _, _, e1, e2, e3, e4⟩ | ⟨_, _, _, e1, e2, e3, e4⟩ <;>
  simp [e1, e2, e3, e4]

theorem bucketLoop_eq (recs : List Student) (hrange : ∀ s ∈ recs, 0 ≤ s.gpa ∧ s.gpa ≤ 4) :
    ∀ b, bucketLoop recs b
      = ⟨b.excellent + recs.countP isExcellent, b.good + recs.countP isGood,
          b.average + recs.countP isAverage, b.poor + recs.countP isPoor⟩ := by
  induction recs with
  | nil => intro b; simp [bucketLoop]
  | cons r rs ih =>
    intro b
    have hr := hrange r (List.mem_cons_self _ _)
    have hrs : ∀ s ∈ rs, 0 ≤ s.gpa ∧ s.gpa ≤ 4 :=
      fun s hs => hrange s (List.mem_cons_of_mem _ hs)
    simp only [bucketLoop, ih hrs, List.countP_cons]
    unfold bucketStep
    rcases band_cases r hr with ⟨h1, e1, e2, e3, e4⟩ | ⟨h1, h2, e1, e2, e3, e4⟩ |
      ⟨h1, h2, h3, e1, e2, e3, e4⟩ | ⟨h1, h2, h3, e1, e2, e3, e4⟩
    · simp [h1, e1, e2, e3, e4]; omega
    · simp [h1, h2, e1, e2, e3, e4]; omega
    · simp [h1, h2, h3, e1, e2, e3, e4]; omega
    · simp [h1, h2, h3, e1, e2, e3, e4]; omega

theorem bands_partition (recs : List Student) (hrange : ∀ s ∈ recs, 0 ≤ s.gpa ∧ s.gpa ≤ 4) :
    recs.countP isExcellent + recs.countP isGood + recs.countP isAverage + recs.countP isPoor
      = recs.length := by
  induction recs with
  | nil => rfl
  | cons r rs ih =>
    have hr := hrange r (List.mem_cons_self _ _)
    have hrs : ∀ s ∈ rs, 0 ≤ s.gpa ∧ s.gpa ≤ 4 :=
      fun s hs => hrange s (List.mem_cons_of_mem _ hs)
    have := ih hrs
    simp only [List.countP_cons, List.length_cons]
    rcases band_cases r hr with ⟨_, e1, e2, e3, e4⟩ | ⟨_, _, e1, e2, e3, e4⟩ |
      ⟨_, _, _, e1, e2, e3, e4⟩ | ⟨_, _, _, e1, e2, e3, e4⟩ <;>
    · simp [e1, e2, e3, e4]; omega

/-- C9. For every store whose GPAs all lie in 0..4, the four counts of the
distribution of `displayStatistics` partition the records: every record lies
in exactly one band, `excellent` counts the records with GPA in [3.5, 4.0],
`good` those in [3.0, 3.5), `average` those in [2.0, 3.0), `poor` those in
[0, 2.0), and the four counts add up to the number of records, which is the
count reported. On the empty store the function stops at "No students"
before the distribution. -/
theorem displayStatistics_buckets_partition (fs : FileSys) (recs : List Student)
    (hdb : fs.db = some recs) (hrange : ∀ s ∈ recs, 0 ≤ s.gpa ∧ s.gpa ≤ 4) :
    (∀ s ∈ recs, bandsOf s = 1) ∧
    (recs = [] → displayStatistics fs = .noStudents) ∧
    (recs ≠ [] → ∃ st, displayStatistics fs = .report st ∧
      st.count = recs.length ∧
      st.buckets.excellent = recs.countP isExcellent ∧
      st.buckets.good = recs.countP isGood ∧
      st.buckets.average = recs.countP isAverage ∧
      st.buckets.poor = recs.countP isPoor ∧
      st.buckets.excellent + st.buckets.good + st.buckets.average + st.buckets.poor
        = recs.length) := by
  refine ⟨fun s hs => bandsOf_eq_one s (hrange s hs), ?_, ?_⟩
  · intro h
    subst h
    simp [displayStatistics, hdb, statsLoop, statsInit]
  · intro hne
    have hcount : (statsLoop recs statsInit).count = recs.length := by
      rw [statsLoop_count]; simp [statsInit]
    have hpos : ¬ (statsLoop recs statsInit).count = 0 := by
      rw [hcount]
      intro h
      exact hne (List.length_eq_zero.1 h)
    have hrun : displayStatistics fs
        = .report
            { count := (statsLoop recs statsInit).count
              highestGPA := (statsLoop recs statsInit).highestGPA
              topStudent := (statsLoop recs statsInit).topStudent
              lowestGPA := (statsLoop recs statsInit).lowestGPA
              weakStudent := (statsLoop recs statsInit).weakStudent
              buckets := bucketLoop recs ⟨0, 0, 0, 0⟩ } := by
      simp only [displayStatistics, hdb, hpos, if_false]
    refine ⟨_, hrun, hcount, ?_, ?_, ?_, ?_, ?_⟩
    all_goals simp only [bucketLoop_eq recs hrange, Nat.zero_add]
    exact bands_partition recs hrange

theorem displayStatistics_buckets_partition_witness :
    (∀ s ∈ sampleGpas, bandsOf s = 1) ∧
    (sampleGpas = [] → displayStatistics ⟨some sampleGpas, none, none⟩ = .noStudents) ∧
    (sampleGpas ≠ [] → ∃ st, displayStatistics ⟨some sampleGpas, none, none⟩ = .report st ∧
      st.count = sampleGpas.length ∧
      st.buckets.excellent = sampleGpas.countP isExcellent ∧
      st.buckets.good = sampleGpas.countP isGood ∧
      st.buckets.average = sampleGpas.countP isAverage ∧
      st.buckets.poor = sampleGpas.countP isPoor ∧
      st.buckets.excellent + st.buckets.good + st.buckets.average + st.buckets.poor
        = sampleGpas.length) :=
  displayStatistics_buckets_partition ⟨some sampleGpas, none, none⟩ sampleGpas rfl
    (by simp [sampleGpas]; norm_num)

/-- The worked example of the statistics: for the GPAs 3.9, 2.1, 3.4 and 0.5
the count is 4, the highest GPA is that of the first record, the lowest that
of the fourth, and each band holds one record. -/
theorem displayStatistics_sampleGpas :
    displayStatistics ⟨some sampleGpas, none, none⟩
      = .report
          { count := 4, highestGPA := 16357786 / 4194304, topStudent := "Ann".toList,
            lowestGPA := 1 / 2, weakStudent := "Di".toList, buckets := ⟨1, 1, 1, 1⟩ } := by
  decide!

/-! ## Capacity of the text fields -/

theorem updateText_length (cap : Nat) (field : List Char) (buffer : Option (List Char))
    (stdin v rest : List Char) (b : Option (List Char))
    (h : updateText cap field buffer stdin = .ok (v, b, rest)) (hfield : field.length < cap) :
    v.length < cap := by
  unfold updateText at h
  split at h
  · simp at h
  · split at h
    · simp only [Except.ok.injEq, Prod.mk.injEq] at h
      rw [← h.1]; exact hfield
    · split at h
      · rename_i hlt
        simp only [Except.ok.injEq, Prod.mk.injEq] at h
        rw [← h.1]; exact hlt
      · simp at h

/-- Whenever the prompts of `updateStudent` have a result, the record they
produce fits the struct if the record found did. -/
theorem updateStudentEdit_fits (L : Libc) (st st1 : Student) (stdin : List Char)
    (h : updateStudentEdit L st stdin = .ok st1) (hfit : st.Fits) : st1.Fits := by
  unfold updateStudentEdit at h
  cases h1 : updateText 50 st.name none stdin with
  | error e => simp [h1] at h
  | ok p1 =>
  obtain ⟨name, b1, t1⟩ := p1
  simp only [h1] at h
  cases h2 : updateText 50 st.department b1 t1 with
  | error e => simp [h2] at h
  | ok p2 =>
  obtain ⟨department, b2, t2⟩ := p2
  simp only [h2] at h
  cases h3 : updateText 30 st.course b2 t2 with
  | error e => simp [h3] at h
  | ok p3 =>
  obtain ⟨course, b3, t3⟩ := p3
  simp only [h3] at h
  have n1 := updateText_length 50 _ _ _ _ _ _ h1 (by have := hfit.1; omega)
  have n2 := updateText_length 50 _ _ _ _ _ _ h2 (by have := hfit.2.1; omega)
  have n3 := updateText_length 30 _ _ _ _ _ _ h3 (by have := hfit.2.2; omega)
  repeat' split at h
  all_goals first
    | (simp only [Except.ok.injEq] at h
       rw [← h]
       exact ⟨by show name.length ≤ 49; omega, by show department.length ≤ 49; omega,
         by show course.length ≤ 29; omega⟩)
    | simp at h

/-- C10. The capacities of the text fields are not kept by `updateStudent`
on an over-long line. In the store holding `sampleA`, whose fields fit, a
new name of 60 characters is neither truncated nor rejected: the line fits
`buffer[100]` and `strcpy(student.name, buffer)` copies 61 bytes into
`name[50]`, past the end of the field, so the call has no defined result.
`addStudent` bounds its reads by the size of the field, but on the same
line it stores the first 49 characters as the name and the remaining 11 as
the department, in place of the department typed. -/
theorem updateStudent_long_name_overflows (L : Libc) :
    sampleA.Fits ∧ name60.length = 60 ∧
      updateStudent L ⟨some [sampleA], none, none⟩ input60 = .error .bufferOverflow ∧
      addStudent ⟨some [sampleA], none, none⟩ inputAdd60
        = .ok (⟨some [sampleA, ⟨5, List.replicate 49 'a', List.replicate 11 'a', "CS".toList,
                  2020, 3⟩], none, none⟩,
            .added ⟨5, List.replicate 49 'a', List.replicate 11 'a', "CS".toList, 2020, 3⟩) := by
  refine ⟨by decide, by decide, ?_, by decide⟩
  rfl

/-! ## deleteStudent: a failed write during the rebuild -/

/-- The outcome of `deleteStudent` does not depend on the results of the
writes to the temporary file: the copy loop never looks at them. -/
theorem deleteStudent_outcome_ignores_writes (fs : FileSys) (inp : DeleteInput)
    (w : Nat → Bool) :
    (match deleteStudent fs { inp with tempWriteOk := w } with
      | .ok (_, out) => some out
      | .error _ => none)
    = (match deleteStudent fs inp with
      | .ok (_, out) => some out
      | .error _ => none) := by
  unfold deleteStudent
  simp only
  cases hroll : inp.roll with
  | none => rfl
  | some searchRoll =>
  simp only
  cases hdb : fs.db with
  | none => rfl
  | some recs =>
  simp only
  cases hscan : deleteStudentScan searchRoll recs with
  | none => rfl
  | some toDelete =>
  simp only
  cases hconfirm : inp.confirm with
  | none => rfl
  | some confirm =>
  simp only
  by_cases hc : confirm ≠ 'y' ∧ confirm ≠ 'Y'
  · simp only [if_pos hc]
  simp only [if_neg hc]
  cases inp.tempOpenOk <;> cases inp.removeOk <;> cases inp.renameOk <;> rfl

/-- C11. A failed write during the rebuild does not abort `deleteStudent`.
In the store `[sampleA, sampleB, sampleC, sampleD]`, a confirmed deletion of
roll number 2 in which the `fwrite` of `sampleC` to the temporary file fails
goes on to `remove` and `rename`: the call ends as a successful deletion and
the store is replaced by `[sampleA, sampleD]`, so `sampleC` is lost and the
store differs from the one before the call. -/
theorem deleteStudent_failed_write_replaces_store :
    deleteStudent ⟨some [sampleA, sampleB, sampleC, sampleD], none, none⟩
        (deleteWithFailedWrite 2 2)
      = .ok (⟨some [sampleA, sampleD], none, none⟩, .deleted) ∧
    (2 : Int) ∈ [sampleA, sampleB, sampleC, sampleD].map Student.roll_no ∧
    (deleteWithFailedWrite 2 2).tempWriteOk 2 = false ∧
    (some [sampleA, sampleD] : Option (List Student))
      ≠ some [sampleA, sampleB, sampleC, sampleD] := by
  refine ⟨by decide, by decide, rfl, by decide⟩

/-! ## exportToCSV -/

theorem exportLine_eq_csvRow (P : Printf) (neg : Bool) (s : Student) :
    exportLine P neg s = csvRow P neg s := by
  simp [exportLine, csvRow, List.intercalate, List.intersperse]

theorem exportLoop_eq (P : Printf) (signbit : Nat → Bool) (recs : List Student) :
    ∀ csv count, exportLoop P signbit recs (csv, count)
      = (csv ++ (csvRows P signbit recs count).flatten, count + recs.length) := by
  induction recs with
  | nil => intro csv count; simp [exportLoop, csvRows]
  | cons r rs ih =>
    intro csv count
    have harith : count + 1 + rs.length = count + (rs.length + 1) := by omega
    simp only [exportLoop, ih, exportLine_eq_csvRow, csvRows, List.flatten_cons,
      List.append_assoc, List.length_cons, harith]

theorem csvRows_length (P : Printf) (signbit : Nat → Bool) (recs : List Student) :
    ∀ i, (csvRows P signbit recs i).length = recs.length := by
  induction recs with
  | nil => intro i; rfl
  | cons r rs ih => intro i; simp [csvRows, ih]

theorem csvRows_getElem? (P : Printf) (signbit : Nat → Bool) (recs : List Student) :
    ∀ (i j : Nat) (r : Student), recs[j]? = some r →
      (csvRows P signbit recs i)[j]? = some (csvRow P (signbit (i + j)) r) := by
  induction recs with
  | nil => intro i j r h; simp at h
  | cons s rest ih =>
    intro i j r h
    cases j with
    | zero =>
      simp only [List.getElem?_cons_zero, Option.some.injEq] at h
      simp [csvRows, h]
    | succ j =>
      simp only [List.getElem?_cons_succ] at h
      have harith : i + 1 + j = i + (j + 1) := by omega
      simp only [csvRows, List.getElem?_cons_succ, ih (i + 1) j r h, harith]

/-- C12. For every existing store of `n` records, `exportToCSV` (the CSV file
being opened) writes the header line `Roll Number,Name,Department,Course,Year
Joined,GPA` first and then exactly `n` rows, the `i`-th being the row of the
`i`-th record in scan order: its roll number, name, department, course, year
and GPA in this order, each text field as it is stored, joined by commas
without escaping and ended by a newline. It reports `n` as the number of
exported records and leaves the store and the temporary file as they were.
This holds for every conversion of the numbers by the C library and every
sign of a zero GPA. -/
theorem exportToCSV_header_and_rows (P : Printf) (fs : FileSys) (recs : List Student)
    (inp : ExportInput) (hdb : fs.db = some recs) (hopen : inp.csvOpenOk = true) :
    ∃ rows : List (List Char),
      rows.length = recs.length ∧
      (∀ (i : Nat) (r : Student), recs[i]? = some r →
        rows[i]? = some (P.conv_d r.roll_no ++ [','] ++ r.name ++ [','] ++ r.department ++
          [','] ++ r.course ++ [','] ++ P.conv_d r.year_joined ++ [','] ++
          P.conv_2f (inp.signbit i) r.gpa ++ ['\n'])) ∧
      exportToCSV P fs inp
        = ({ fs with
              csv := some ("Roll Number,Name,Department,Course,Year Joined,GPA\n".toList
                ++ rows.flatten) },
            .exported recs.length) ∧
      (exportToCSV P fs inp).1.db = some recs ∧
      (exportToCSV P fs inp).1.temp = fs.temp := by
  have hrun : exportToCSV P fs inp
      = ({ fs with
            csv := some ("Roll Number,Name,Department,Course,Year Joined,GPA\n".toList
              ++ (csvRows P inp.signbit recs 0).flatten) },
          .exported recs.length) := by
    simp [exportToCSV, hdb, hopen, exportLoop_eq, csvHeader]
  refine ⟨csvRows P inp.signbit recs 0, csvRows_length P inp.signbit recs 0, ?_, hrun,
    by rw [hrun]; exact hdb, by rw [hrun]⟩
  intro i r hr
  rw [csvRows_getElem? P inp.signbit recs 0 i r hr, Nat.zero_add]
  simp [csvRow, List.intercalate, List.intersperse]

theorem exportToCSV_header_and_rows_witness :
    ∃ rows : List (List Char),
      rows.length = [sampleA, sampleComma].length ∧
      (∀ (i : Nat) (r : Student), [sampleA, sampleComma][i]? = some r →
        rows[i]? = some (samplePrintf.conv_d r.roll_no ++ [','] ++ r.name ++ [','] ++
          r.department ++ [','] ++ r.course ++ [','] ++ samplePrintf.conv_d r.year_joined ++
          [','] ++ samplePrintf.conv_2f (plainExport.signbit i) r.gpa ++ ['\n'])) ∧
      exportToCSV samplePrintf ⟨some [sampleA, sampleComma], none, none⟩ plainExport
        = ({ (⟨some [sampleA, sampleComma], none, none⟩ : FileSys) with
              csv := some ("Roll Number,Name,Department,Course,Year Joined,GPA\n".toList
                ++ rows.flatten) },
            .exported [sampleA, sampleComma].length) ∧
      (exportToCSV samplePrintf ⟨some [sampleA, sampleComma], none, none⟩ plainExport).1.db
        = some [sampleA, sampleComma] ∧
      (exportToCSV samplePrintf ⟨some [sampleA, sampleComma], none, none⟩ plainExport).1.temp
        = none :=
  exportToCSV_header_and_rows samplePrintf ⟨some [sampleA, sampleComma], none, none⟩
    [sampleA, sampleComma] plainExport rfl rfl

/-- The worked example of the export: two records, one with a comma in its
name, which is written as it is. -/
theorem exportToCSV_sample :
    exportToCSV samplePrintf ⟨some [sampleA, sampleComma], none, none⟩ plainExport
      = (⟨some [sampleA, sampleComma], none,
          some ("Roll Number,Name,Department,Course,Year Joined,GPA\n".toList ++
            "1,Ann,CS,BSc,2020,3.00\n".toList ++ "7,Lee, Ann,CS,BSc,2024,0.12\n".toList)⟩,
        .exported 2) := by
  decide!

/-- The export of a GPA that is the negative zero: the sign bit reaches the
conversion, which writes it. -/
theorem exportToCSV_negative_zero :
    exportToCSV samplePrintf ⟨some [sampleZero], none, none⟩ ⟨true, fun _ => true⟩
      = (⟨some [sampleZero], none,
          some ("Roll Number,Name,Department,Course,Year Joined,GPA\n".toList ++
            "1,Ann,CS,BSc,2020,-0.00\n".toList)⟩,
        .exported 1) := by
  decide!

/-- The export of the existing empty store: the header alone, and a count of 0. -/
theorem exportToCSV_empty (P : Printf) (inp : ExportInput) (hopen : inp.csvOpenOk = true) :
    exportToCSV P ⟨some [], none, none⟩ inp
      = (⟨some [], none, some "Roll Number,Name,Department,Course,Year Joined,GPA\n".toList⟩,
          .exported 0) := by
  simp [exportToCSV, hopen, exportLoop, csvHeader]

end StudentMgmt
